import Mathlib

/-!
Shallow embedding of the pattern-match lowering engine of
`compiler/rustc_mir_build/src/build/matches/mod.rs`.

The embedding covers the fragment of the data model that the verified
properties exercise: scrutinees are (nested tuples of) booleans, places are
projection paths, test cases are boolean constants or or-patterns.  Spans are
numbers; source-info bookkeeping that does not influence the generated
control flow (scopes, drop scheduling side tables, debug info) is dropped.
Collaborator functions that live in submodules absent from the sources
(`test.rs`, `util.rs`, `as_place.rs`) are modelled from the specification and
marked as such in their doc comments.
-/

/-- A place is a projection path into the scrutinee (field indices). -/
abbrev Place := List Nat

/-- Mirrors `Binding` (span, source place, variable id, binding mode).
`byRef` is `true` for `ByRef::Yes(_)`; mutability does not affect the lowered
control flow modelled here. -/
structure Binding where
  span : Nat
  source : Place
  varId : Nat
  byRef : Bool
  deriving DecidableEq, Repr

/-- Mirrors `Ascription` (source place and the user-type assertion; the
`CanonicalUserTypeAnnotation` payload is an opaque number here). -/
structure Ascription where
  source : Place
  annot : Nat
  deriving DecidableEq, Repr

/-- Mirrors `PatternExtraData`: span, accumulated bindings and ascriptions,
and the never-pattern flag. -/
structure PatternExtraData where
  span : Nat
  bindings : List Binding
  ascriptions : List Ascription
  isNever : Bool
  deriving DecidableEq, Repr

/-- Mirrors `PatternExtraData::is_empty`: no bindings and no ascriptions. -/
def PatternExtraData.isEmpty (d : PatternExtraData) : Bool :=
  d.bindings.isEmpty && d.ascriptions.isEmpty

mutual
/-- Mirrors `TestCase` restricted to the boolean fragment: `Constant` with a
boolean value, and `Or` with a list of simplified alternatives.  The other
variants (`Variant`, `Range`, `Slice`, `Deref`, `Never`, `Irrefutable`) do not
occur in simplified boolean patterns. -/
inductive TestCase where
  | constant (value : Bool)
  | orPats (pats : List FlatPat)

/-- Mirrors `MatchPair`: an optional place to test, a test case, subpairs
that must also match, and (the span of) the originating pattern. -/
inductive MatchPair where
  | mk (place : Option Place) (testCase : TestCase) (subpairs : List MatchPair)
      (patternSpan : Nat)

/-- Mirrors `FlatPat`: a simplified match-pair list plus extra data. -/
inductive FlatPat where
  | mk (matchPairs : List MatchPair) (extraData : PatternExtraData)
end

def MatchPair.place : MatchPair → Option Place
  | .mk p _ _ _ => p

def MatchPair.testCase : MatchPair → TestCase
  | .mk _ t _ _ => t

def MatchPair.subpairs : MatchPair → List MatchPair
  | .mk _ _ s _ => s

def MatchPair.patternSpan : MatchPair → Nat
  | .mk _ _ _ s => s

def FlatPat.matchPairs : FlatPat → List MatchPair
  | .mk mp _ => mp

def FlatPat.extraData : FlatPat → PatternExtraData
  | .mk _ d => d

/-- Mirrors `Candidate`.  The four block-graph references are filled in during
lowering; `subcandidates` makes this a nested recursive tree. -/
inductive Candidate where
  | mk (matchPairs : List MatchPair) (subcandidates : List Candidate)
      (hasGuard : Bool) (extraData : PatternExtraData) (orSpan : Option Nat)
      (preBindingBlock : Option Nat) (otherwiseBlock : Option Nat)
      (falseEdgeStartBlock : Option Nat) (nextCandidateStartBlock : Option Nat)

def Candidate.matchPairs : Candidate → List MatchPair
  | .mk mp _ _ _ _ _ _ _ _ => mp

def Candidate.subcandidates : Candidate → List Candidate
  | .mk _ s _ _ _ _ _ _ _ => s

def Candidate.hasGuard : Candidate → Bool
  | .mk _ _ g _ _ _ _ _ _ => g

def Candidate.extraData : Candidate → PatternExtraData
  | .mk _ _ _ d _ _ _ _ _ => d

def Candidate.orSpan : Candidate → Option Nat
  | .mk _ _ _ _ o _ _ _ _ => o

def Candidate.preBindingBlock : Candidate → Option Nat
  | .mk _ _ _ _ _ p _ _ _ => p

def Candidate.otherwiseBlock : Candidate → Option Nat
  | .mk _ _ _ _ _ _ o _ _ => o

def Candidate.falseEdgeStartBlock : Candidate → Option Nat
  | .mk _ _ _ _ _ _ _ f _ => f

def Candidate.nextCandidateStartBlock : Candidate → Option Nat
  | .mk _ _ _ _ _ _ _ _ n => n

def Candidate.setMatchPairs (c : Candidate) (v : List MatchPair) : Candidate :=
  match c with
  | .mk _ s g d o p ow f n => .mk v s g d o p ow f n

def Candidate.setSubcandidates (c : Candidate) (v : List Candidate) : Candidate :=
  match c with
  | .mk mp _ g d o p ow f n => .mk mp v g d o p ow f n

def Candidate.setOrSpan (c : Candidate) (v : Option Nat) : Candidate :=
  match c with
  | .mk mp s g d _ p ow f n => .mk mp s g d v p ow f n

def Candidate.setPreBindingBlock (c : Candidate) (v : Option Nat) : Candidate :=
  match c with
  | .mk mp s g d o _ ow f n => .mk mp s g d o v ow f n

def Candidate.setOtherwiseBlock (c : Candidate) (v : Option Nat) : Candidate :=
  match c with
  | .mk mp s g d o p _ f n => .mk mp s g d o p v f n

def Candidate.setFalseEdgeStartBlock (c : Candidate) (v : Option Nat) : Candidate :=
  match c with
  | .mk mp s g d o p ow _ n => .mk mp s g d o p ow v n

def Candidate.setNextCandidateStartBlock (c : Candidate) (v : Option Nat) : Candidate :=
  match c with
  | .mk mp s g d o p ow f _ => .mk mp s g d o p ow f v

/-- Mirrors `Candidate::from_flat_pat`: wrap an already-simplified `FlatPat`
into a fresh candidate. -/
def Candidate.fromFlatPat (fp : FlatPat) (hasGuard : Bool) : Candidate :=
  .mk fp.matchPairs [] hasGuard fp.extraData none none none none none

/-- Mirrors `Candidate::starts_with_or_pattern`. -/
def Candidate.startsWithOrPattern (c : Candidate) : Bool :=
  match c.matchPairs with
  | ⟨_, .orPats _, _, _⟩ :: _ => true
  | _ => false

/-! ## The control-flow graph being built

Mirrors the `CFG` the builder grafts blocks onto.  Statement and terminator
kinds are restricted to those the lowering in `matches/mod.rs` emits; the
rvalues record exactly the distinction the move-after-guard property needs
(borrows vs. `consume_by_copy_or_move`). -/

/-- Mirrors `FakeReadCause` (the variants used in this module). -/
inductive FakeReadCause where
  | forMatchedPlace
  | forMatchGuard
  | forGuardBinding
  | forLet
  deriving DecidableEq, Repr

/-- The target of a fake read: a place or a local. -/
inductive RdTarget where
  | place (p : Place)
  | loc (l : Nat)
  deriving DecidableEq, Repr

/-- The rvalues this module assigns: shared borrows of the matched place
(guard locals), pattern borrows (`ref` bindings), fake borrows, borrows of a
local (guard view of a `ref` binding), and `consume_by_copy_or_move` of the
source place (by-value arm locals). -/
inductive Rvalue where
  | refShared (source : Place)
  | refPat (source : Place)
  | refFake (source : Place)
  | refOfLocal (l : Nat)
  | useMoveCopy (source : Place)
  deriving DecidableEq, Repr

/-- MIR statements emitted by this module. -/
inductive Stmt where
  | assign (dest : Nat) (rv : Rvalue)
  | fakeRead (cause : FakeReadCause) (target : RdTarget)
  | storageLive (l : Nat)
  | ascribeUserType (source : Place) (annot : Nat)
  deriving DecidableEq, Repr

/-- Terminators emitted by this module.  `test` is the multi-way branch of
`perform_test` for boolean tests: evaluate the place, take the branch keyed
by its value, fall through to `otherwise`. -/
inductive Term where
  | goto (target : Nat)
  | unreachable
  | falseEdge (real imaginary : Nat)
  | test (place : Place) (branches : List (Bool × Nat)) (otherwise : Nat)
  deriving DecidableEq, Repr

/-- One basic block: statements plus an optional terminator. -/
structure BlockData where
  stmts : List Stmt := []
  term : Option Term := none
  deriving DecidableEq, Repr

/-- The CFG under construction (block `i` is `blocks[i]`). -/
structure Cfg where
  blocks : List BlockData := []
  deriving DecidableEq, Repr

/-- The all-empty block every fresh block starts as. -/
def BlockData.empty : BlockData := ⟨[], none⟩

/-- Mirrors `CFG::start_new_block`: returns the fresh block's index. -/
def Cfg.startNewBlock (c : Cfg) : Nat × Cfg :=
  (c.blocks.length, ⟨c.blocks ++ [BlockData.empty]⟩)

/-- Reading a block; out-of-range indices read as an empty block. -/
def Cfg.block (c : Cfg) (b : Nat) : BlockData :=
  c.blocks.getD b BlockData.empty

/-- Point update of a block.  The list is padded first so that the update
always takes effect (the Rust builder only ever addresses blocks it has
allocated). -/
def Cfg.modifyBlock (c : Cfg) (b : Nat) (f : BlockData → BlockData) : Cfg :=
  ⟨(c.blocks ++ List.replicate (b + 1 - c.blocks.length) BlockData.empty).set b (f (c.block b))⟩

/-- Mirrors `CFG::push`. -/
def Cfg.push (c : Cfg) (b : Nat) (st : Stmt) : Cfg :=
  c.modifyBlock b fun bd => { bd with stmts := bd.stmts ++ [st] }

/-- Appending a whole statement list to a block (a fold of `CFG::push`). -/
def Cfg.pushAll (c : Cfg) (b : Nat) (l : List Stmt) : Cfg :=
  l.foldl (fun c st => c.push b st) c

/-- Mirrors `CFG::push_fake_read`. -/
def Cfg.pushFakeRead (c : Cfg) (b : Nat) (cause : FakeReadCause) (t : RdTarget) : Cfg :=
  c.push b (.fakeRead cause t)

/-- Mirrors `CFG::terminate`. -/
def Cfg.terminate (c : Cfg) (b : Nat) (t : Term) : Cfg :=
  c.modifyBlock b fun bd => { bd with term := some t }

/-- Mirrors `CFG::goto`. -/
def Cfg.goto (c : Cfg) (b : Nat) (target : Nat) : Cfg :=
  c.terminate b (.goto target)

/-! ## Leaf traversals

`Candidate::visit_leaves` / `traverse_candidate` recurse over the nested
candidate tree.  The embedding uses a fuel-indexed worklist so that all
definitions compute by kernel reduction; `fuel` only needs to exceed the
number of tree nodes. -/

/-- Depth-first list of the leaf candidates of a worklist of candidates
(mirrors `traverse_candidate` with a leaf-collecting visitor). -/
def leavesWork : Nat → List Candidate → Option (List Candidate)
  | 0, _ => none
  | _ + 1, [] => some []
  | fuel + 1, c :: rest =>
    match c.subcandidates with
    | [] => (leavesWork fuel rest).map (c :: ·)
    | subs => leavesWork fuel (subs ++ rest)

/-- Mirrors `Candidate::visit_leaves` with a leaf-updating, CFG-threading
visitor: every leaf of every tree in the list is replaced by the result of
`f`, in depth-first order. -/
def mapLeavesList (fuel : Nat) (f : Candidate → Cfg → Option (Candidate × Cfg)) :
    List Candidate → Cfg → Option (List Candidate × Cfg) :=
  match fuel with
  | 0 => fun _ _ => none
  | fuel + 1 => fun cs cfg =>
    match cs with
    | [] => some ([], cfg)
    | c :: rest =>
      match c.subcandidates with
      | [] =>
        match f c cfg with
        | none => none
        | some (c, cfg) =>
          match mapLeavesList fuel f rest cfg with
          | none => none
          | some (rest, cfg) => some (c :: rest, cfg)
      | _ :: _ =>
        match mapLeavesList fuel f c.subcandidates cfg with
        | none => none
        | some (subs, cfg) =>
          match mapLeavesList fuel f rest cfg with
          | none => none
          | some (rest, cfg) => some (c.setSubcandidates subs :: rest, cfg)

/-! ## The decision-tree lowerer -/

/-- The head of `match_candidates_inner`: the first candidate of the slice
has its `false_edge_start_block` set to the start block, and only if it was
still unset. -/
def setFirstFalseEdge (startBlock : Nat) : List Candidate → List Candidate
  | [] => []
  | first :: rest =>
    (if first.falseEdgeStartBlock.isNone then
      first.setFalseEdgeStartBlock (some startBlock)
    else first) :: rest

/-- Mirrors `select_matched_candidate`: link up a candidate with no remaining
match pairs.  The three `assert!`s of the source become failure. -/
def selectMatchedCandidate (candidate : Candidate) (startBlock : Nat) (cfg : Cfg) :
    Option (Candidate × Nat × Cfg) :=
  if candidate.otherwiseBlock.isNone && candidate.preBindingBlock.isNone
      && candidate.subcandidates.isEmpty then
    let candidate := candidate.setPreBindingBlock (some startBlock)
    let (otherwiseBlock, cfg) := cfg.startNewBlock
    some (candidate.setOtherwiseBlock (some otherwiseBlock), otherwiseBlock, cfg)
  else none

/-- Mirrors `create_or_subcandidates`: expand an or-pattern match pair into
one subcandidate per alternative; the first subcandidate inherits the
parent's `false_edge_start_block`.  Fails on a non-or test case (`bug!`) and
on an empty alternative list (the source would panic indexing `[0]`). -/
def createOrSubcandidates (c : Candidate) (pair : MatchPair) : Option Candidate :=
  match pair.testCase with
  | .orPats pats =>
    match pats.map (fun fp => Candidate.fromFlatPat fp c.hasGuard) with
    | [] => none
    | s0 :: rest =>
      some ((c.setOrSpan (some pair.patternSpan)).setSubcandidates
        (s0.setFalseEdgeStartBlock c.falseEdgeStartBlock :: rest))
  | _ => none

/-- The merge loop of `merge_trivial_subcandidates`: route every
subcandidate's pre-binding block to `anyMatches`, threading the mutable
`last_otherwise` accumulator. -/
def mergeGotos (anyMatches : Nat) : List Candidate → Cfg → Option Nat →
    Option (Option Nat × Cfg)
  | [], cfg, acc => some (acc, cfg)
  | sub :: subs, cfg, _ =>
    match sub.preBindingBlock with
    | none => none
    | some orBlock => mergeGotos anyMatches subs (cfg.goto orBlock anyMatches) sub.otherwiseBlock

/-- Terminate each leaf's pre-binding block with `Unreachable` (the body of
the `visit_leaves` call inside the never filter of
`merge_trivial_subcandidates`). -/
def terminateLeafBlocks : List Candidate → Cfg → Option Cfg
  | [], cfg => some cfg
  | leaf :: rest, cfg =>
    match leaf.preBindingBlock with
    | none => none
    | some b => terminateLeafBlocks rest (cfg.terminate b .unreachable)

/-- The never-filtering loop of `merge_trivial_subcandidates` (its
`retain_mut`): `is_never` subcandidates are dropped after terminating each of
their leaves' pre-binding blocks with `Unreachable`. -/
def filterNeverSubcandidates (fuel : Nat) : List Candidate → Cfg →
    Option (List Candidate × Cfg)
  | [], cfg => some ([], cfg)
  | c :: cs, cfg =>
    if c.extraData.isNever then
      match leavesWork fuel [c] with
      | none => none
      | some lvs =>
        match terminateLeafBlocks lvs cfg with
        | none => none
        | some cfg => filterNeverSubcandidates fuel cs cfg
    else
      match filterNeverSubcandidates fuel cs cfg with
      | none => none
      | some (cs', cfg) => some (c :: cs', cfg)

/-- Mirrors `merge_trivial_subcandidates`.  `fuel` bounds the leaf traversal
in the never-filtering branch. -/
def mergeTrivialSubcandidates (fuel : Nat) (c : Candidate) (cfg : Cfg) :
    Option (Candidate × Cfg) :=
  if c.subcandidates.isEmpty || c.hasGuard then some (c, cfg)
  else
    let canMerge := c.subcandidates.all fun sub =>
      sub.subcandidates.isEmpty && sub.extraData.isEmpty
    if canMerge then
      let (anyMatches, cfg) := cfg.startNewBlock
      match c.orSpan with
      | none => none
      | some _ =>
        let c := c.setOrSpan none
        let c := if c.falseEdgeStartBlock.isNone then
            c.setFalseEdgeStartBlock (match c.subcandidates with
              | s0 :: _ => s0.falseEdgeStartBlock
              | [] => none)
          else c
        match mergeGotos anyMatches c.subcandidates cfg none with
        | none => none
        | some (lastOtherwise, cfg) =>
          let c := (c.setSubcandidates []).setPreBindingBlock (some anyMatches)
          match lastOtherwise with
          | none => none
          | some _ => some (c.setOtherwiseBlock lastOtherwise, cfg)
    else
      match filterNeverSubcandidates fuel c.subcandidates cfg with
      | none => none
      | some (subs, cfg) =>
        let c := c.setSubcandidates subs
        if subs.isEmpty then
          let (b, cfg) := cfg.startNewBlock
          some (c.setPreBindingBlock (some b), cfg)
        else some (c, cfg)

/-- The per-leaf body of the `visit_leaves` call in `finalize_or_candidate`
that lowers the parent's leftover match pairs: attach the remaining pairs to
the leaf, lower them from the leaf's pre-binding block via `recur`
(`match_candidates`), and route the resulting otherwise block to the leaf's
own otherwise block when there is a guard, to `lastOtherwise` when not. -/
def finalizeLeafStep
    (recur : Nat → List Candidate → Cfg → Option (Nat × List Candidate × Cfg))
    (lastOtherwise : Option Nat) (remainingMatchPairs : List MatchPair)
    (leaf : Candidate) (cfg : Cfg) : Option (Candidate × Cfg) :=
  if leaf.matchPairs.isEmpty then
    let leaf := leaf.setMatchPairs remainingMatchPairs
    match leaf.preBindingBlock with
    | none => none
    | some orStart =>
      match recur orStart [leaf] cfg with
      | none => none
      | some (otherwise, leafs, cfg) =>
        let leaf := leafs.headD leaf
        match (if leaf.hasGuard then leaf.otherwiseBlock else lastOtherwise) with
        | none => none
        | some orOtherwise => some (leaf, cfg.goto otherwise orOtherwise)
  else none

/-- Mirrors `finalize_or_candidate`: merge trivial subcandidates, then, if
match pairs remained on the parent, test them after each leaf subcandidate.
`recur` is `match_candidates` at the current fuel. -/
def finalizeOrCandidate
    (recur : Nat → List Candidate → Cfg → Option (Nat × List Candidate × Cfg))
    (fuel : Nat) (c : Candidate) (cfg : Cfg) : Option (Candidate × Cfg) :=
  if c.subcandidates.isEmpty then some (c, cfg)
  else
    match mergeTrivialSubcandidates fuel c cfg with
    | none => none
    | some (c, cfg) =>
      if c.matchPairs.isEmpty then some (c, cfg)
      else
        match leavesWork fuel [c] with
        | none => none
        | some lvs =>
          let lastOtherwise := (lvs.getLast?).bind Candidate.otherwiseBlock
          let remaining := c.matchPairs
          let c := c.setMatchPairs []
          match mapLeavesList fuel (finalizeLeafStep recur lastOtherwise remaining) [c] cfg with
          | some (c' :: _, cfg) => some (c', cfg)
          | _ => none

/-! ## Test selection and partitioning -/

/-- The test kinds arising in the boolean fragment (`TestKind::If`). -/
inductive TestKind where
  | ifBool
  deriving DecidableEq, Repr

/-- Mirrors `Test` (the span is dropped). -/
structure Test where
  kind : TestKind
  deriving DecidableEq, Repr

/-- Modelled from the spec: the Test Classifier collaborator
(`classify_test` / `Builder::test` in the absent `test.rs`), a pure function
from a match pair to the kind of runtime check needed.  A boolean constant
needs an `If` test; an or-pattern match pair is never classified (the source
would `bug!`). -/
def testOf (pair : MatchPair) : Option Test :=
  match pair.testCase with
  | .constant _ => some ⟨.ifBool⟩
  | .orPats _ => none

/-- Mirrors `pick_test`: extract the match pair from the highest priority
candidate, classify it, and unwrap its place. -/
def pickTest (candidates : List Candidate) : Option (Place × Test) :=
  match candidates with
  | [] => none
  | first :: _ =>
    match first.matchPairs with
    | [] => none
    | pair :: _ =>
      match testOf pair, pair.place with
      | some t, some place => some (place, t)
      | _, _ => none

/-- Whether a match pair is an or-pattern pair. -/
def MatchPair.isOrPat (pair : MatchPair) : Bool :=
  match pair.testCase with
  | .orPats _ => true
  | .constant _ => false

/-- Restore the pair-list invariant: or-pattern pairs are sorted (stably) to
the end of the pair list. -/
def orPatsToEnd (pairs : List MatchPair) : List MatchPair :=
  pairs.filter (fun p => ! p.isOrPat) ++ pairs.filter MatchPair.isOrPat

/-- The scan of `sort_candidate` for the candidate's match pair on the tested
place: the first pair whose place is the match place, at any position,
together with the remaining pairs in their original order. -/
def findPlacePair (matchPlace : Place) : List MatchPair → Option (MatchPair × List MatchPair)
  | [] => none
  | pair :: rest =>
    if pair.place = some matchPlace then some (pair, rest)
    else (findPlacePair matchPlace rest).map (fun pr => (pr.1, pair :: pr.2))

/-- Modelled from the spec: `sort_candidate` (absent `test.rs`), for the
boolean fragment.  The candidate's match pair on the tested place — at any
position in its pair list — determines which test outcome makes the candidate
apply: a boolean-constant pair fully matches under the branch for that
constant, and the candidate is transformed to reflect the now-known outcome
(the matched pair is removed, its subpairs folded into the remaining pairs,
and or-pattern pairs re-sorted to the end).  A candidate with no pair on the
tested place, or whose pair there is an or-pattern, could apply under more
than one outcome and stops the scan. -/
def sortCandidate (matchPlace : Place) (t : Test) (c : Candidate) :
    Option (Bool × Candidate) :=
  match t.kind with
  | .ifBool =>
    match findPlacePair matchPlace c.matchPairs with
    | some (pair, others) =>
      match pair.testCase with
      | .constant b => some (b, c.setMatchPairs (orPatsToEnd (others ++ pair.subpairs)))
      | .orPats _ => none
    | none => none

/-- The scanning loop of `sort_candidates`: sort candidates from the front
into outcome buckets (kept as an outcome-tagged list in original order) until
one cannot be sorted. -/
def sortCandidatesLoop (matchPlace : Place) (t : Test) :
    List Candidate → List (Bool × Candidate) → List (Bool × Candidate) × List Candidate
  | [], acc => (acc, [])
  | c :: cs, acc =>
    match sortCandidate matchPlace t c with
    | some (branch, c') => sortCandidatesLoop matchPlace t cs (acc ++ [(branch, c')])
    | none => (acc, c :: cs)

/-- Mirrors `sort_candidates`: returns the unsorted candidates and the sorted,
outcome-tagged ones.  The source's
`assert!(total_candidate_count > candidates.len())` — at least the first
candidate ought to be tested — becomes failure. -/
def sortCandidates (matchPlace : Place) (t : Test) (candidates : List Candidate) :
    Option (List Candidate × List (Bool × Candidate)) :=
  let (sorted, rest) := sortCandidatesLoop matchPlace t candidates []
  if candidates.length > rest.length then some (rest, sorted) else none

/-- Modelled from the spec: the Test Executor collaborator (`perform_test` in
the absent `test.rs`) emits the actual multi-way branch terminator: evaluate
the match place, branch to the target block of the matching outcome, and fall
through to the remainder block for outcomes with no target. -/
def performTest (startBlock remainderStart : Nat) (matchPlace : Place)
    (targetBlocks : List (Bool × Nat)) (cfg : Cfg) : Cfg :=
  cfg.terminate startBlock (.test matchPlace targetBlocks remainderStart)

/-- First-occurrence deduplication of outcome keys (the iteration order of
the `FxIndexMap` of buckets). -/
def dedupKeys (l : List Bool) : List Bool :=
  l.foldl (fun acc k => if acc.contains k then acc else acc ++ [k]) []

/-- The candidates sorted into the bucket of outcome `k`, in original order. -/
def bucketOf (k : Bool) (sorted : List (Bool × Candidate)) : List Candidate :=
  (sorted.filter fun p => p.1 == k).map (·.2)

/-- Per-outcome processing of `test_candidates`: build a start block per
outcome, recursively lower that outcome's candidates from it, and link the
result to the shared remainder block.  Returns the outcome→block mapping and
the updated buckets. -/
def processBuckets
    (recur : Nat → List Candidate → Cfg → Option (Nat × List Candidate × Cfg)) :
    List Bool → List (Bool × Candidate) → Nat → Cfg →
    Option (List (Bool × Nat) × List (Bool × List Candidate) × Cfg)
  | [], _, _, cfg => some ([], [], cfg)
  | k :: ks, sorted, remainderStart, cfg =>
    let (branchStart, cfg) := cfg.startNewBlock
    match recur branchStart (bucketOf k sorted) cfg with
    | none => none
    | some (branchOtherwise, bucketDone, cfg) =>
      let cfg := cfg.goto branchOtherwise remainderStart
      match processBuckets recur ks sorted remainderStart cfg with
      | none => none
      | some (targets, buckets, cfg) =>
        some ((k, branchStart) :: targets, (k, bucketDone) :: buckets, cfg)

/-- Association-list lookup for the updated buckets. -/
def lookupBucket (k : Bool) : List (Bool × List Candidate) → Option (List Candidate)
  | [] => none
  | (k', v) :: rest => if k' == k then some v else lookupBucket k rest

/-- Association-list update for the updated buckets. -/
def updateBucket (k : Bool) (v : List Candidate) :
    List (Bool × List Candidate) → List (Bool × List Candidate)
  | [] => []
  | (k', v') :: rest => if k' == k then (k', v) :: rest else (k', v') :: updateBucket k v rest

/-- Reassemble the sorted candidates in their original order from the
per-outcome updated buckets (the functional rendering of the in-place `&mut`
updates the buckets perform on the caller's slice). -/
def refillBuckets : List (Bool × Candidate) → List (Bool × List Candidate) → List Candidate
  | [], _ => []
  | (k, c) :: rest, buckets =>
    match lookupBucket k buckets with
    | some (c' :: more) => c' :: refillBuckets rest (updateBucket k more buckets)
    | _ => c :: refillBuckets rest buckets

/-- Mirrors `test_candidates`: pick a test from the first candidate, sort the
candidates by outcome, lower each outcome's candidates to a shared remainder
block, perform the test, and hand back the remainder block plus the unsorted
candidates. -/
def testCandidates
    (recur : Nat → List Candidate → Cfg → Option (Nat × List Candidate × Cfg))
    (candidates : List Candidate) (startBlock : Nat) (cfg : Cfg) :
    Option (Nat × List Candidate × List Candidate × Cfg) :=
  match pickTest candidates with
  | none => none
  | some (matchPlace, t) =>
    match sortCandidates matchPlace t candidates with
    | none => none
    | some (remaining, sorted) =>
      let (remainderStart, cfg) := cfg.startNewBlock
      match processBuckets recur (dedupKeys (sorted.map (·.1))) sorted remainderStart cfg with
      | none => none
      | some (targetBlocks, buckets, cfg) =>
        let sortedDone := refillBuckets sorted buckets
        let cfg := performTest startBlock remainderStart matchPlace targetBlocks cfg
        some (remainderStart, sortedDone, remaining, cfg)

/-! ## The or-pattern expander -/

/-- Expansion of the prefix of `expand_and_match_or_candidates`: candidates
starting with an or-pattern have that pair removed and expanded into
subcandidates (tagged `true`); other candidates expand to themselves
(tagged `false`). -/
def expandPrefix : List Candidate → Option (List (Bool × Candidate))
  | [] => some []
  | c :: cs =>
    if c.startsWithOrPattern then
      match c.matchPairs with
      | pair :: rest =>
        match createOrSubcandidates (c.setMatchPairs rest) pair with
        | none => none
        | some c' => (expandPrefix cs).map ((true, c') :: ·)
      | [] => none
    else (expandPrefix cs).map ((false, c) :: ·)

/-- Push the post-expansion view of the prefix: the subcandidates of expanded
candidates, the candidate itself otherwise. -/
def flattenExpanded (l : List (Bool × Candidate)) : List Candidate :=
  l.foldr (fun p acc => (if p.1 then p.2.subcandidates else [p.2]) ++ acc) []

/-- Distribute the lowered, flattened candidate list back into the expanded
parents (the functional rendering of the `&mut` aliasing through which the
recursive call updates subcandidates in place). -/
def unflattenExpanded : List (Bool × Candidate) → List Candidate → List Candidate
  | [], _ => []
  | (f, c) :: ps, rest =>
    if f then
      c.setSubcandidates (rest.take c.subcandidates.length) ::
        unflattenExpanded ps (rest.drop c.subcandidates.length)
    else
      match rest with
      | c' :: r => c' :: unflattenExpanded ps r
      | [] => c :: unflattenExpanded ps []

/-- The finalization pass over the prefix: candidates that gained
subcandidates get `finalize_or_candidate`. -/
def finalizePrefix
    (recur : Nat → List Candidate → Cfg → Option (Nat × List Candidate × Cfg))
    (fuel : Nat) : List Candidate → Cfg → Option (List Candidate × Cfg)
  | [], cfg => some ([], cfg)
  | c :: cs, cfg =>
    if c.subcandidates.isEmpty then
      match finalizePrefix recur fuel cs cfg with
      | none => none
      | some (l, cfg) => some (c :: l, cfg)
    else
      match finalizeOrCandidate recur fuel c cfg with
      | none => none
      | some (c', cfg) =>
        match finalizePrefix recur fuel cs cfg with
        | none => none
        | some (l, cfg) => some (c' :: l, cfg)

/-- Mirrors `expand_and_match_or_candidates`: split the slice after the first
candidate that starts with an or-pattern but has further match pairs, expand
one level of or-patterns in the prefix, lower the expanded candidates, then
finalize the expanded parents.  Returns the remainder start block, the fully
processed prefix, and the untouched suffix. -/
def expandAndMatchOrCandidates
    (recur : Nat → List Candidate → Cfg → Option (Nat × List Candidate × Cfg))
    (fuel : Nat) (startBlock : Nat) (candidates : List Candidate) (cfg : Cfg) :
    Option (Nat × List Candidate × List Candidate × Cfg) :=
  let expandUntil :=
    ((candidates.findIdx? fun c =>
        c.matchPairs.length > 1 && c.startsWithOrPattern).map (· + 1)).getD
      candidates.length
  let toExpand := candidates.take expandUntil
  let remaining := candidates.drop expandUntil
  match expandPrefix toExpand with
  | none => none
  | some expPairs =>
    match recur startBlock (flattenExpanded expPairs) cfg with
    | none => none
    | some (remainderStart, flattened, cfg) =>
      let expDone := unflattenExpanded expPairs flattened
      match finalizePrefix recur fuel expDone cfg with
      | none => none
      | some (expDone, cfg) => some (remainderStart, expDone, remaining, cfg)

/-! ## The main loop -/

/-- One unfolding of `match_candidates_inner`: process a prefix of the
candidate slice (fully-matched head candidate, or-pattern expansion, or a
test) and recurse on whatever suffix is left, from the returned block.
`recur` is the next-smaller-fuel instance of the loop. -/
def matchCandidatesStep
    (recur : Nat → List Candidate → Cfg → Option (Nat × List Candidate × Cfg))
    (fuel : Nat) (startBlock : Nat) (candidates : List Candidate) (cfg : Cfg) :
    Option (Nat × List Candidate × Cfg) :=
  let candidates := setFirstFalseEdge startBlock candidates
  match candidates with
  | [] => some (startBlock, [], cfg)
  | first :: remaining =>
    if first.matchPairs.isEmpty then
      match selectMatchedCandidate first startBlock cfg with
      | none => none
      | some (first, remainderStart, cfg) =>
        match recur remainderStart remaining cfg with
        | none => none
        | some (ow, remaining, cfg) => some (ow, first :: remaining, cfg)
    else if (first :: remaining).any Candidate.startsWithOrPattern then
      match expandAndMatchOrCandidates recur fuel startBlock (first :: remaining) cfg with
      | none => none
      | some (remainderStart, donePrefix, rest, cfg) =>
        match recur remainderStart rest cfg with
        | none => none
        | some (ow, rest, cfg) => some (ow, donePrefix ++ rest, cfg)
    else
      match testCandidates recur (first :: remaining) startBlock cfg with
      | none => none
      | some (remainderStart, donePrefix, rest, cfg) =>
        match recur remainderStart rest cfg with
        | none => none
        | some (ow, rest, cfg) => some (ow, donePrefix ++ rest, cfg)

/-- Mirrors `match_candidates` (with `ensure_sufficient_stack` rendered as
explicit fuel): the candidate slice is lowered starting from `startBlock`;
the result is the accumulated otherwise block, the updated candidates, and
the extended CFG. -/
def matchCandidatesF : Nat → Nat → List Candidate → Cfg →
    Option (Nat × List Candidate × Cfg)
  | 0 => fun _ _ _ => none
  | fuel + 1 => matchCandidatesStep (matchCandidatesF fuel) fuel

/-- Entry wrapper for `matchCandidatesF`. -/
def matchCandidates (fuel : Nat) (startBlock : Nat) (candidates : List Candidate)
    (cfg : Cfg) : Option (Nat × List Candidate × Cfg) :=
  matchCandidatesF fuel startBlock candidates cfg

/-! ## The false-edge linker and `lower_match_tree` -/

/-- The linking loop of `lower_match_tree`: every leaf candidate's
`next_candidate_start_block` is set to the next leaf's
`false_edge_start_block` (asserted `Some`), walking the flattened leaf list
in original arm order. -/
def linkLeafList : List Candidate → Option (List Candidate)
  | [] => some []
  | [c] => some [c]
  | c :: next :: rest =>
    if next.falseEdgeStartBlock.isSome then
      match linkLeafList (next :: rest) with
      | none => none
      | some linked =>
        some (c.setNextCandidateStartBlock next.falseEdgeStartBlock :: linked)
    else none

/-- The refutable tail of `lower_match_tree`: the last leaf candidate (the
final value of `previous_candidate`, whose absence is the source's
`unwrap()` panic) gets the failure block as `next_candidate_start_block`. -/
def setLastNextCandidate (otherwiseBlock : Nat) : List Candidate → Option (List Candidate)
  | [] => none
  | [c] => some [c.setNextCandidateStartBlock (some otherwiseBlock)]
  | c :: rest =>
    match setLastNextCandidate otherwiseBlock rest with
    | none => none
    | some rest => some (c :: rest)

/-- Mirrors `lower_match_tree`.  `tryToPlace` is the Modelled-from-the-spec
resolution of the scrutinee place builder (`PlaceBuilder::try_to_place` in
the absent `as_place.rs`): `none` when the place refers to a non-captured
place in a closure.  The source links leaves in place through `&mut`
references into the candidate trees; the embedding returns the linked,
flattened leaf list (in original arm order) alongside the otherwise block. -/
def lowerMatchTree (fuel : Nat) (block : Nat) (tryToPlace : Option Place)
    (candidates : List Candidate) (refutable : Bool) (cfg : Cfg) :
    Option (Nat × List Candidate × Cfg) :=
  match matchCandidates fuel block candidates cfg with
  | none => none
  | some (otherwiseBlock, candidates, cfg) =>
    match leavesWork fuel candidates with
    | none => none
    | some leafList =>
      match linkLeafList leafList with
      | none => none
      | some leafList =>
        if refutable then
          match setLastNextCandidate otherwiseBlock leafList with
          | none => none
          | some leafList => some (otherwiseBlock, leafList, cfg)
        else
          let cfg := match tryToPlace with
            | some p => cfg.pushFakeRead otherwiseBlock .forMatchedPlace (.place p)
            | none => cfg
          some (otherwiseBlock, leafList, cfg.terminate otherwiseBlock .unreachable)

/-! ## The guard and binding lowerer -/

/-- Modelled from the spec: `false_edges` (absent `util.rs`) emits a
synthetic two-target branch — real successor `realTarget`, fake successor the
next candidate's start — or a plain goto when there is no next candidate. -/
def falseEdges (cfg : Cfg) (src realTarget : Nat) (imaginaryTarget : Option Nat) : Cfg :=
  match imaginaryTarget with
  | some t => cfg.terminate src (.falseEdge realTarget t)
  | none => cfg.goto src realTarget

/-- The statements `bind_matched_candidate_for_guard` pushes: for each
binding, a storage-live for the guard-local; by-value bindings get
`ref_for_guard = &source`, by-ref bindings first materialize the arm-local
reference and then `ref_for_guard = &value_for_arm`.  `localFor v forGuard`
is `var_local_id` (`RefWithinGuard` when `forGuard`). -/
def guardBindStmts (localFor : Nat → Bool → Nat) : List Binding → List Stmt
  | [] => []
  | b :: bs =>
    (if !b.byRef then
      [.storageLive (localFor b.varId true),
       .assign (localFor b.varId true) (.refShared b.source)]
    else
      [.storageLive (localFor b.varId true),
       .storageLive (localFor b.varId false),
       .assign (localFor b.varId false) (.refPat b.source),
       .assign (localFor b.varId true) (.refOfLocal (localFor b.varId false))]) ++
    guardBindStmts localFor bs

/-- Mirrors `bind_matched_candidate_for_guard`. -/
def bindMatchedCandidateForGuard (cfg : Cfg) (block : Nat)
    (localFor : Nat → Bool → Nat) (bindings : List Binding) : Cfg :=
  cfg.pushAll block (guardBindStmts localFor bindings)

/-- The statements `bind_matched_candidate_for_arm_body` pushes: for each
binding a storage-live for the arm-local (unless the caller emitted them),
then the materializing assignment — `consume_by_copy_or_move` of the source
for by-value bindings, a pattern borrow for by-ref ones.  Drop scheduling is
a side table not modelled here. -/
def armBindStmts (localFor : Nat → Bool → Nat) (emitStorageLive : Bool) :
    List Binding → List Stmt
  | [] => []
  | b :: bs =>
    (if emitStorageLive then [Stmt.storageLive (localFor b.varId false)] else []) ++
    [Stmt.assign (localFor b.varId false)
      (if b.byRef then Rvalue.refPat b.source else .useMoveCopy b.source)] ++
    armBindStmts localFor emitStorageLive bs

/-- Mirrors `bind_matched_candidate_for_arm_body`. -/
def bindMatchedCandidateForArmBody (cfg : Cfg) (block : Nat)
    (localFor : Nat → Bool → Nat) (emitStorageLive : Bool)
    (bindings : List Binding) : Cfg :=
  cfg.pushAll block (armBindStmts localFor emitStorageLive bindings)

/-- The statements `ascribe_types` pushes. -/
def ascriptionStmts (ascriptions : List Ascription) : List Stmt :=
  ascriptions.map fun a => .ascribeUserType a.source a.annot

/-- Mirrors `ascribe_types`. -/
def ascribeTypes (cfg : Cfg) (block : Nat) (ascriptions : List Ascription) : Cfg :=
  cfg.pushAll block (ascriptionStmts ascriptions)

/-- The fake-borrow assignments pushed before guard lowering (one frozen view
per collected place; `fakeBorrows` pairs each place with its temp local). -/
def fakeBorrowStmts (fakeBorrows : List (Place × Nat)) : List Stmt :=
  fakeBorrows.map fun pt => .assign pt.2 (.refFake pt.1)

/-- The `ForMatchGuard` fake reads of the fake-borrow temporaries pushed on
guard success. -/
def matchGuardReadStmts (fakeBorrows : List (Place × Nat)) : List Stmt :=
  fakeBorrows.map fun pt => .fakeRead .forMatchGuard (.loc pt.2)

/-- The `ForGuardBinding` fake reads of the by-value guard-locals pushed on
guard success. -/
def guardBindingReadStmts (localFor : Nat → Bool → Nat)
    (byValueBindings : List Binding) : List Stmt :=
  byValueBindings.map fun b => .fakeRead .forGuardBinding (.loc (localFor b.varId true))

/-- Mirrors `bind_and_guard_matched_candidate`.

`lowerGuard block cfg` abstracts the guard-lowering collaborator pipeline
(`in_if_then_scope` + `then_else_break` on the arm's guard expression): it
extends the CFG from `block` and returns the guard-success block
(`post_guard_block`) and the guard-failure block
(`otherwise_post_guard_block`).  `hasGuardArm` is
`arm_match_scope.is_some() && arm.guard.is_some()`; `fakeBorrows` are the
collected fake-borrow (place, temp) pairs.  Drop scheduling and the
guard-frame side tables are not modelled. -/
def bindAndGuardMatchedCandidate
    (lowerGuard : Nat → Cfg → Cfg × Nat × Nat)
    (localFor : Nat → Bool → Nat)
    (fakeBorrows : List (Place × Nat))
    (hasGuardArm : Bool) (emitStorageLive : Bool)
    (candidate : Candidate) (parentData : List PatternExtraData)
    (cfg : Cfg) : Option (Nat × Cfg) :=
  if !candidate.matchPairs.isEmpty then none
  else
    match candidate.preBindingBlock with
    | none => none
    | some preBinding =>
      let (block, cfg) :=
        if candidate.nextCandidateStartBlock.isSome then
          let (freshBlock, cfg) := cfg.startNewBlock
          (freshBlock, falseEdges cfg preBinding freshBlock candidate.nextCandidateStartBlock)
        else (preBinding, cfg)
      if candidate.extraData.isNever then
        let cfg := cfg.terminate block .unreachable
        let (nb, cfg) := cfg.startNewBlock
        some (nb, cfg)
      else
        let ascriptions := (parentData.foldr (fun d acc => d.ascriptions ++ acc) [])
          ++ candidate.extraData.ascriptions
        let bindings := (parentData.foldr (fun d acc => d.bindings ++ acc) [])
          ++ candidate.extraData.bindings
        let cfg := ascribeTypes cfg block ascriptions
        if hasGuardArm then
          let cfg := bindMatchedCandidateForGuard cfg block localFor bindings
          let cfg := cfg.pushAll block (fakeBorrowStmts fakeBorrows)
          let (cfg, postGuardBlock, otherwisePostGuardBlock) := lowerGuard block cfg
          let cfg := cfg.pushAll postGuardBlock (matchGuardReadStmts fakeBorrows)
          let (otherwiseBlock, cfg) :=
            match candidate.otherwiseBlock with
            | some ob => (ob, cfg)
            | none =>
              let (u, cfg) := cfg.startNewBlock
              (u, cfg.terminate u .unreachable)
          let cfg := falseEdges cfg otherwisePostGuardBlock otherwiseBlock
            candidate.nextCandidateStartBlock
          let byValueBindings := bindings.filter fun b => !b.byRef
          let cfg := cfg.pushAll postGuardBlock (guardBindingReadStmts localFor byValueBindings)
          let cfg := bindMatchedCandidateForArmBody cfg postGuardBlock localFor
            emitStorageLive byValueBindings
          some (postGuardBlock, cfg)
        else
          let cfg := bindMatchedCandidateForArmBody cfg block localFor
            emitStorageLive bindings
          some (block, cfg)

/-! ## Runtime semantics of the produced CFG

Execution of the lowered control flow on a concrete scrutinee: `env` gives
the boolean value stored at each place, `stops` maps arm-entry blocks to the
values of the corresponding arm bodies.  False edges follow their real
successor, as at runtime. -/

def execCfg (cfg : Cfg) (env : Place → Option Bool) (stops : List (Nat × Nat)) :
    Nat → Nat → Option Nat
  | 0, _ => none
  | fuel + 1, b =>
    match stops.lookup b with
    | some v => some v
    | none =>
      match (cfg.block b).term with
      | some (.goto t) => execCfg cfg env stops fuel t
      | some (.falseEdge real _) => execCfg cfg env stops fuel real
      | some (.test p branches otherwise) =>
        match env p with
        | some v => execCfg cfg env stops fuel ((branches.lookup v).getD otherwise)
        | none => none
      | _ => none

/-! ## Basic lemmas about the CFG operations -/

theorem Cfg.block_def (c : Cfg) (b : Nat) :
    c.block b = (c.blocks[b]?).getD BlockData.empty := by
  simp [Cfg.block, List.getD_eq_getElem?_getD]

theorem Cfg.block_modifyBlock_self (c : Cfg) (b : Nat) (f : BlockData → BlockData) :
    (c.modifyBlock b f).block b = f (c.block b) := by
  have hlen : b < (c.blocks ++ List.replicate (b + 1 - c.blocks.length) BlockData.empty).length := by
    simp only [List.length_append, List.length_replicate]
    omega
  simp [Cfg.modifyBlock, Cfg.block_def, List.getElem?_set_self hlen]

theorem Cfg.block_modifyBlock_other (c : Cfg) (b : Nat) (f : BlockData → BlockData)
    (b' : Nat) (h : b' ≠ b) :
    (c.modifyBlock b f).block b' = c.block b' := by
  simp only [Cfg.modifyBlock, Cfg.block_def]
  rw [List.getElem?_set_ne (by omega)]
  by_cases hb : b' < c.blocks.length
  · rw [List.getElem?_append, if_pos hb]
  · rw [List.getElem?_append_right (by omega), List.getElem?_replicate]
    rw [List.getElem?_eq_none (by omega)]
    split <;> simp

theorem Cfg.block_startNewBlock (c : Cfg) (b : Nat) :
    ((c.startNewBlock).2).block b = c.block b := by
  simp only [Cfg.startNewBlock, Cfg.block_def]
  by_cases hb : b < c.blocks.length
  · rw [List.getElem?_append, if_pos hb]
  · rw [List.getElem?_append_right (by omega)]
    rw [List.getElem?_eq_none (l := c.blocks) (by omega)]
    rcases Nat.lt_or_ge (b - c.blocks.length) 1 with h1 | h1
    · match hx : [BlockData.empty][b - c.blocks.length]? with
      | none => simp_all
      | some v =>
        have := List.getElem?_eq_some_iff.mp hx
        simp only [List.length_singleton] at this
        obtain ⟨_, hv⟩ := this
        simp at hv
        simp [hx, hv]
    · rw [List.getElem?_eq_none (by simpa using h1)]

theorem Cfg.startNewBlock_fst (c : Cfg) : (c.startNewBlock).1 = c.blocks.length := rfl

theorem Cfg.block_append_empty (c : Cfg) (b : Nat) :
    (Cfg.mk (c.blocks ++ [BlockData.empty])).block b = c.block b :=
  Cfg.block_startNewBlock c b

theorem Cfg.block_push_self (c : Cfg) (b : Nat) (st : Stmt) :
    (c.push b st).block b = ⟨(c.block b).stmts ++ [st], (c.block b).term⟩ := by
  simp [Cfg.push, Cfg.block_modifyBlock_self]

theorem Cfg.block_push_other (c : Cfg) (b : Nat) (st : Stmt) (b' : Nat) (h : b' ≠ b) :
    (c.push b st).block b' = c.block b' :=
  Cfg.block_modifyBlock_other c b _ b' h

theorem Cfg.pushAll_nil (c : Cfg) (b : Nat) : c.pushAll b [] = c := rfl

theorem Cfg.pushAll_cons (c : Cfg) (b : Nat) (st : Stmt) (l : List Stmt) :
    c.pushAll b (st :: l) = (c.push b st).pushAll b l := rfl

theorem Cfg.block_pushAll_self (c : Cfg) (b : Nat) (l : List Stmt) :
    (c.pushAll b l).block b = ⟨(c.block b).stmts ++ l, (c.block b).term⟩ := by
  induction l generalizing c with
  | nil => simp [Cfg.pushAll_nil]
  | cons st l ih =>
    rw [Cfg.pushAll_cons, ih, Cfg.block_push_self]
    simp

theorem Cfg.block_pushAll_other (c : Cfg) (b : Nat) (l : List Stmt) (b' : Nat)
    (h : b' ≠ b) : (c.pushAll b l).block b' = c.block b' := by
  induction l generalizing c with
  | nil => simp [Cfg.pushAll_nil]
  | cons st l ih => rw [Cfg.pushAll_cons, ih, Cfg.block_push_other c b st b' h]

theorem Cfg.block_terminate_self (c : Cfg) (b : Nat) (t : Term) :
    (c.terminate b t).block b = ⟨(c.block b).stmts, some t⟩ := by
  simp [Cfg.terminate, Cfg.block_modifyBlock_self]

theorem Cfg.block_terminate_other (c : Cfg) (b : Nat) (t : Term) (b' : Nat)
    (h : b' ≠ b) : (c.terminate b t).block b' = c.block b' :=
  Cfg.block_modifyBlock_other c b _ b' h

theorem Cfg.stmts_terminate (c : Cfg) (b : Nat) (t : Term) (b' : Nat) :
    ((c.terminate b t).block b').stmts = (c.block b').stmts := by
  by_cases h : b' = b
  · subst h; rw [Cfg.block_terminate_self]
  · rw [Cfg.block_terminate_other c b t b' h]

theorem Cfg.stmts_goto (c : Cfg) (b target : Nat) (b' : Nat) :
    ((c.goto b target).block b').stmts = (c.block b').stmts :=
  Cfg.stmts_terminate c b _ b'

/-! ## The priority-semantics scenario

Arms `[(true,true) -> 1, (_,false) -> 2, (false,true) -> 3]` over scrutinee
`(true, false)`.  The candidates below are the simplified form the Pattern
Simplifier collaborator produces for these arms: the scrutinee fields are
places `[0]` and `[1]`, wildcards contribute no match pair. -/

/-- A simplified boolean-constant match pair on place `p`. -/
def pairConst (p : Place) (b : Bool) : MatchPair := .mk (some p) (.constant b) [] 0

/-- Extra data of a pattern with no bindings or ascriptions. -/
def emptyExtraData : PatternExtraData := ⟨0, [], [], false⟩

/-- An unguarded candidate with the given simplified match pairs. -/
def plainCandidate (pairs : List MatchPair) : Candidate :=
  .mk pairs [] false emptyExtraData none none none none none

/-- The three candidates of the priority-semantics scenario, in source
order. -/
def priorityArms : List Candidate :=
  [plainCandidate [pairConst [0] true, pairConst [1] true],
   plainCandidate [pairConst [1] false],
   plainCandidate [pairConst [0] false, pairConst [1] true]]

/-- The decision tree for the scenario: one initial block, exhaustive
(irrefutable) match. -/
def priorityLowered : Option (Nat × List Candidate × Cfg) :=
  lowerMatchTree 30 0 (some []) priorityArms false ⟨[BlockData.empty]⟩

/-- Guard-lowering stub for unguarded arms (never invoked by
`bindAndGuardMatchedCandidate` when `hasGuardArm` is false). -/
def noGuardLowering : Nat → Cfg → Cfg × Nat × Nat := fun _ c => (c, 0, 0)

/-- A one-local-per-variable table for patterns that bind nothing. -/
def trivialLocalFor : Nat → Bool → Nat := fun v _ => v

/-- The arm-entry blocks of the scenario: each linked leaf candidate is
handed to the guard-and-binding step (no guards, no bindings), which inserts
the false-edge blocks and returns the block from which the arm body runs. -/
def priorityArmEntries : Option (List Nat × Cfg) :=
  match priorityLowered with
  | none => none
  | some (_, leafs, cfg) =>
    leafs.foldlM (fun (acc : List Nat × Cfg) leaf =>
      match bindAndGuardMatchedCandidate noGuardLowering trivialLocalFor [] false true
          leaf [] acc.2 with
      | none => none
      | some (b, cfg) => some (acc.1 ++ [b], cfg)) ([], cfg)

/-- The scrutinee `(true, false)`: field `0` is `true`, field `1` is
`false`. -/
def priorityScrutinee : Place → Option Bool := fun p =>
  match p with
  | [0] => some true
  | [1] => some false
  | _ => none

/-- Executing the produced CFG on the scrutinee, stopping at the arm-entry
blocks with the corresponding arm body values `1`, `2`, `3`. -/
def priorityMatchResult : Option Nat :=
  match priorityArmEntries with
  | none => none
  | some (entries, cfg) => execCfg cfg priorityScrutinee (entries.zip [1, 2, 3]) 20 0

/-- C2: for arms `[(true,true)->1, (_,false)->2, (false,true)->3]` over
scrutinee `(true, false)`, execution of the CFG built by the decision-tree
lowerer reaches the body of arm 2 — the first arm in source order whose
pattern matches — even though the emitted tests examine the fields in a
different order. -/
theorem priority_semantics_first_match_wins : priorityMatchResult = some 2 := by decide

/-! ## The irrefutable failure path -/

/-- C4 (amended): for an irrefutable invocation of `lowerMatchTree` whose
scrutinee place resolves (`try_to_place` returns some place), the accumulated
otherwise block gets an `Unreachable` terminator preceded by a defensive
`ForMatchedPlace` fake read of the scrutinee place (as its final
statement). -/
theorem irrefutable_unreachable_with_fake_read
    (fuel block : Nat) (p : Place) (candidates : List Candidate) (cfg : Cfg)
    (ow : Nat) (ls : List Candidate) (cfg' : Cfg)
    (h : lowerMatchTree fuel block (some p) candidates false cfg = some (ow, ls, cfg')) :
    (∃ pre, (cfg'.block ow).stmts = pre ++ [Stmt.fakeRead .forMatchedPlace (.place p)]) ∧
    (cfg'.block ow).term = some .unreachable := by
  unfold lowerMatchTree at h
  split at h
  · exact absurd h (by simp)
  rename_i r ow1 cands1 cfg1 hmc
  split at h
  · exact absurd h (by simp)
  rename_i r2 lvs1 hlv
  split at h
  · exact absurd h (by simp)
  rename_i r3 lvs2 hlk
  simp only [Bool.false_eq_true, if_false, Option.some.injEq, Prod.mk.injEq] at h
  obtain ⟨how, hls, hcfg⟩ := h
  subst how hcfg
  constructor
  · refine ⟨(cfg1.block ow1).stmts, ?_⟩
    rw [Cfg.stmts_terminate]
    simp [Cfg.pushFakeRead, Cfg.block_push_self]
  · rw [Cfg.block_terminate_self]

/-- Witness for C4's amended theorem: a concrete irrefutable lowering with a
resolvable scrutinee place ends its otherwise block with `Unreachable`. -/
theorem irrefutable_unreachable_with_fake_read_witness :
    ((lowerMatchTree 10 0 (some []) [plainCandidate []] false ⟨[BlockData.empty]⟩).map
      fun r => ((r.2.2.block r.1).term,
        (r.2.2.block r.1).stmts.getLast?)) =
    some (some .unreachable, some (.fakeRead .forMatchedPlace (.place []))) := by
  have hsome : (lowerMatchTree 10 0 (some []) [plainCandidate []] false
      ⟨[BlockData.empty]⟩).isSome = true := by decide
  cases hrun : lowerMatchTree 10 0 (some []) [plainCandidate []] false ⟨[BlockData.empty]⟩ with
  | none => rw [hrun] at hsome; simp at hsome
  | some r =>
    obtain ⟨ow, ls, cfg'⟩ := r
    have h2 := irrefutable_unreachable_with_fake_read 10 0 [] _ _ _ _ _ hrun
    obtain ⟨⟨pre, hpre⟩, hterm⟩ := h2
    simp only [Option.map_some', Option.some.injEq]
    rw [hterm, hpre]
    simp [List.getLast?_concat]

/-- Counterexample to C4 as stated: when the scrutinee place builder does not
resolve to a place (a non-captured place in a closure), the otherwise block
of an irrefutable lowering is terminated `Unreachable` with no statements at
all — in particular with no preceding defensive fake read. -/
theorem irrefutable_no_fake_read_counterexample :
    ((lowerMatchTree 10 0 none [plainCandidate []] false ⟨[BlockData.empty]⟩).map
      fun r => ((r.2.2.block r.1).stmts, (r.2.2.block r.1).term)) =
    some ([], some .unreachable) := by decide

/-! ## Accessor laws for the candidate setters -/

@[simp] theorem Candidate.matchPairs_setMatchPairs (c : Candidate) (v : List MatchPair) :
    (c.setMatchPairs v).matchPairs = v := by cases c; rfl

@[simp] theorem Candidate.subcandidates_setMatchPairs (c : Candidate) (v : List MatchPair) :
    (c.setMatchPairs v).subcandidates = c.subcandidates := by cases c; rfl

@[simp] theorem Candidate.hasGuard_setMatchPairs (c : Candidate) (v : List MatchPair) :
    (c.setMatchPairs v).hasGuard = c.hasGuard := by cases c; rfl

@[simp] theorem Candidate.extraData_setMatchPairs (c : Candidate) (v : List MatchPair) :
    (c.setMatchPairs v).extraData = c.extraData := by cases c; rfl

@[simp] theorem Candidate.orSpan_setMatchPairs (c : Candidate) (v : List MatchPair) :
    (c.setMatchPairs v).orSpan = c.orSpan := by cases c; rfl

@[simp] theorem Candidate.preBindingBlock_setMatchPairs (c : Candidate) (v : List MatchPair) :
    (c.setMatchPairs v).preBindingBlock = c.preBindingBlock := by cases c; rfl

@[simp] theorem Candidate.otherwiseBlock_setMatchPairs (c : Candidate) (v : List MatchPair) :
    (c.setMatchPairs v).otherwiseBlock = c.otherwiseBlock := by cases c; rfl

@[simp] theorem Candidate.falseEdgeStartBlock_setMatchPairs (c : Candidate) (v : List MatchPair) :
    (c.setMatchPairs v).falseEdgeStartBlock = c.falseEdgeStartBlock := by cases c; rfl

@[simp] theorem Candidate.nextCandidateStartBlock_setMatchPairs (c : Candidate) (v : List MatchPair) :
    (c.setMatchPairs v).nextCandidateStartBlock = c.nextCandidateStartBlock := by cases c; rfl

@[simp] theorem Candidate.matchPairs_setSubcandidates (c : Candidate) (v : List Candidate) :
    (c.setSubcandidates v).matchPairs = c.matchPairs := by cases c; rfl

@[simp] theorem Candidate.subcandidates_setSubcandidates (c : Candidate) (v : List Candidate) :
    (c.setSubcandidates v).subcandidates = v := by cases c; rfl

@[simp] theorem Candidate.hasGuard_setSubcandidates (c : Candidate) (v : List Candidate) :
    (c.setSubcandidates v).hasGuard = c.hasGuard := by cases c; rfl

@[simp] theorem Candidate.extraData_setSubcandidates (c : Candidate) (v : List Candidate) :
    (c.setSubcandidates v).extraData = c.extraData := by cases c; rfl

@[simp] theorem Candidate.orSpan_setSubcandidates (c : Candidate) (v : List Candidate) :
    (c.setSubcandidates v).orSpan = c.orSpan := by cases c; rfl

@[simp] theorem Candidate.preBindingBlock_setSubcandidates (c : Candidate) (v : List Candidate) :
    (c.setSubcandidates v).preBindingBlock = c.preBindingBlock := by cases c; rfl

@[simp] theorem Candidate.otherwiseBlock_setSubcandidates (c : Candidate) (v : List Candidate) :
    (c.setSubcandidates v).otherwiseBlock = c.otherwiseBlock := by cases c; rfl

@[simp] theorem Candidate.falseEdgeStartBlock_setSubcandidates (c : Candidate) (v : List Candidate) :
    (c.setSubcandidates v).falseEdgeStartBlock = c.falseEdgeStartBlock := by cases c; rfl

@[simp] theorem Candidate.nextCandidateStartBlock_setSubcandidates (c : Candidate) (v : List Candidate) :
    (c.setSubcandidates v).nextCandidateStartBlock = c.nextCandidateStartBlock := by cases c; rfl

@[simp] theorem Candidate.matchPairs_setOrSpan (c : Candidate) (v : Option Nat) :
    (c.setOrSpan v).matchPairs = c.matchPairs := by cases c; rfl

@[simp] theorem Candidate.subcandidates_setOrSpan (c : Candidate) (v : Option Nat) :
    (c.setOrSpan v).subcandidates = c.subcandidates := by cases c; rfl

@[simp] theorem Candidate.hasGuard_setOrSpan (c : Candidate) (v : Option Nat) :
    (c.setOrSpan v).hasGuard = c.hasGuard := by cases c; rfl

@[simp] theorem Candidate.extraData_setOrSpan (c : Candidate) (v : Option Nat) :
    (c.setOrSpan v).extraData = c.extraData := by cases c; rfl

@[simp] theorem Candidate.orSpan_setOrSpan (c : Candidate) (v : Option Nat) :
    (c.setOrSpan v).orSpan = v := by cases c; rfl

@[simp] theorem Candidate.preBindingBlock_setOrSpan (c : Candidate) (v : Option Nat) :
    (c.setOrSpan v).preBindingBlock = c.preBindingBlock := by cases c; rfl

@[simp] theorem Candidate.otherwiseBlock_setOrSpan (c : Candidate) (v : Option Nat) :
    (c.setOrSpan v).otherwiseBlock = c.otherwiseBlock := by cases c; rfl

@[simp] theorem Candidate.falseEdgeStartBlock_setOrSpan (c : Candidate) (v : Option Nat) :
    (c.setOrSpan v).falseEdgeStartBlock = c.falseEdgeStartBlock := by cases c; rfl

@[simp] theorem Candidate.nextCandidateStartBlock_setOrSpan (c : Candidate) (v : Option Nat) :
    (c.setOrSpan v).nextCandidateStartBlock = c.nextCandidateStartBlock := by cases c; rfl

@[simp] theorem Candidate.matchPairs_setPreBindingBlock (c : Candidate) (v : Option Nat) :
    (c.setPreBindingBlock v).matchPairs = c.matchPairs := by cases c; rfl

@[simp] theorem Candidate.subcandidates_setPreBindingBlock (c : Candidate) (v : Option Nat) :
    (c.setPreBindingBlock v).subcandidates = c.subcandidates := by cases c; rfl

@[simp] theorem Candidate.hasGuard_setPreBindingBlock (c : Candidate) (v : Option Nat) :
    (c.setPreBindingBlock v).hasGuard = c.hasGuard := by cases c; rfl

@[simp] theorem Candidate.extraData_setPreBindingBlock (c : Candidate) (v : Option Nat) :
    (c.setPreBindingBlock v).extraData = c.extraData := by cases c; rfl

@[simp] theorem Candidate.orSpan_setPreBindingBlock (c : Candidate) (v : Option Nat) :
    (c.setPreBindingBlock v).orSpan = c.orSpan := by cases c; rfl

@[simp] theorem Candidate.preBindingBlock_setPreBindingBlock (c : Candidate) (v : Option Nat) :
    (c.setPreBindingBlock v).preBindingBlock = v := by cases c; rfl

@[simp] theorem Candidate.otherwiseBlock_setPreBindingBlock (c : Candidate) (v : Option Nat) :
    (c.setPreBindingBlock v).otherwiseBlock = c.otherwiseBlock := by cases c; rfl

@[simp] theorem Candidate.falseEdgeStartBlock_setPreBindingBlock (c : Candidate) (v : Option Nat) :
    (c.setPreBindingBlock v).falseEdgeStartBlock = c.falseEdgeStartBlock := by cases c; rfl

@[simp] theorem Candidate.nextCandidateStartBlock_setPreBindingBlock (c : Candidate) (v : Option Nat) :
    (c.setPreBindingBlock v).nextCandidateStartBlock = c.nextCandidateStartBlock := by cases c; rfl

@[simp] theorem Candidate.matchPairs_setOtherwiseBlock (c : Candidate) (v : Option Nat) :
    (c.setOtherwiseBlock v).matchPairs = c.matchPairs := by cases c; rfl

@[simp] theorem Candidate.subcandidates_setOtherwiseBlock (c : Candidate) (v : Option Nat) :
    (c.setOtherwiseBlock v).subcandidates = c.subcandidates := by cases c; rfl

@[simp] theorem Candidate.hasGuard_setOtherwiseBlock (c : Candidate) (v : Option Nat) :
    (c.setOtherwiseBlock v).hasGuard = c.hasGuard := by cases c; rfl

@[simp] theorem Candidate.extraData_setOtherwiseBlock (c : Candidate) (v : Option Nat) :
    (c.setOtherwiseBlock v).extraData = c.extraData := by cases c; rfl

@[simp] theorem Candidate.orSpan_setOtherwiseBlock (c : Candidate) (v : Option Nat) :
    (c.setOtherwiseBlock v).orSpan = c.orSpan := by cases c; rfl

@[simp] theorem Candidate.preBindingBlock_setOtherwiseBlock (c : Candidate) (v : Option Nat) :
    (c.setOtherwiseBlock v).preBindingBlock = c.preBindingBlock := by cases c; rfl

@[simp] theorem Candidate.otherwiseBlock_setOtherwiseBlock (c : Candidate) (v : Option Nat) :
    (c.setOtherwiseBlock v).otherwiseBlock = v := by cases c; rfl

@[simp] theorem Candidate.falseEdgeStartBlock_setOtherwiseBlock (c : Candidate) (v : Option Nat) :
    (c.setOtherwiseBlock v).falseEdgeStartBlock = c.falseEdgeStartBlock := by cases c; rfl

@[simp] theorem Candidate.nextCandidateStartBlock_setOtherwiseBlock (c : Candidate) (v : Option Nat) :
    (c.setOtherwiseBlock v).nextCandidateStartBlock = c.nextCandidateStartBlock := by cases c; rfl

@[simp] theorem Candidate.matchPairs_setFalseEdgeStartBlock (c : Candidate) (v : Option Nat) :
    (c.setFalseEdgeStartBlock v).matchPairs = c.matchPairs := by cases c; rfl

@[simp] theorem Candidate.subcandidates_setFalseEdgeStartBlock (c : Candidate) (v : Option Nat) :
    (c.setFalseEdgeStartBlock v).subcandidates = c.subcandidates := by cases c; rfl

@[simp] theorem Candidate.hasGuard_setFalseEdgeStartBlock (c : Candidate) (v : Option Nat) :
    (c.setFalseEdgeStartBlock v).hasGuard = c.hasGuard := by cases c; rfl

@[simp] theorem Candidate.extraData_setFalseEdgeStartBlock (c : Candidate) (v : Option Nat) :
    (c.setFalseEdgeStartBlock v).extraData = c.extraData := by cases c; rfl

@[simp] theorem Candidate.orSpan_setFalseEdgeStartBlock (c : Candidate) (v : Option Nat) :
    (c.setFalseEdgeStartBlock v).orSpan = c.orSpan := by cases c; rfl

@[simp] theorem Candidate.preBindingBlock_setFalseEdgeStartBlock (c : Candidate) (v : Option Nat) :
    (c.setFalseEdgeStartBlock v).preBindingBlock = c.preBindingBlock := by cases c; rfl

@[simp] theorem Candidate.otherwiseBlock_setFalseEdgeStartBlock (c : Candidate) (v : Option Nat) :
    (c.setFalseEdgeStartBlock v).otherwiseBlock = c.otherwiseBlock := by cases c; rfl

@[simp] theorem Candidate.falseEdgeStartBlock_setFalseEdgeStartBlock (c : Candidate) (v : Option Nat) :
    (c.setFalseEdgeStartBlock v).falseEdgeStartBlock = v := by cases c; rfl

@[simp] theorem Candidate.nextCandidateStartBlock_setFalseEdgeStartBlock (c : Candidate) (v : Option Nat) :
    (c.setFalseEdgeStartBlock v).nextCandidateStartBlock = c.nextCandidateStartBlock := by cases c; rfl

@[simp] theorem Candidate.matchPairs_setNextCandidateStartBlock (c : Candidate) (v : Option Nat) :
    (c.setNextCandidateStartBlock v).matchPairs = c.matchPairs := by cases c; rfl

@[simp] theorem Candidate.subcandidates_setNextCandidateStartBlock (c : Candidate) (v : Option Nat) :
    (c.setNextCandidateStartBlock v).subcandidates = c.subcandidates := by cases c; rfl

@[simp] theorem Candidate.hasGuard_setNextCandidateStartBlock (c : Candidate) (v : Option Nat) :
    (c.setNextCandidateStartBlock v).hasGuard = c.hasGuard := by cases c; rfl

@[simp] theorem Candidate.extraData_setNextCandidateStartBlock (c : Candidate) (v : Option Nat) :
    (c.setNextCandidateStartBlock v).extraData = c.extraData := by cases c; rfl

@[simp] theorem Candidate.orSpan_setNextCandidateStartBlock (c : Candidate) (v : Option Nat) :
    (c.setNextCandidateStartBlock v).orSpan = c.orSpan := by cases c; rfl

@[simp] theorem Candidate.preBindingBlock_setNextCandidateStartBlock (c : Candidate) (v : Option Nat) :
    (c.setNextCandidateStartBlock v).preBindingBlock = c.preBindingBlock := by cases c; rfl

@[simp] theorem Candidate.otherwiseBlock_setNextCandidateStartBlock (c : Candidate) (v : Option Nat) :
    (c.setNextCandidateStartBlock v).otherwiseBlock = c.otherwiseBlock := by cases c; rfl

@[simp] theorem Candidate.falseEdgeStartBlock_setNextCandidateStartBlock (c : Candidate) (v : Option Nat) :
    (c.setNextCandidateStartBlock v).falseEdgeStartBlock = c.falseEdgeStartBlock := by cases c; rfl

@[simp] theorem Candidate.nextCandidateStartBlock_setNextCandidateStartBlock (c : Candidate) (v : Option Nat) :
    (c.setNextCandidateStartBlock v).nextCandidateStartBlock = v := by cases c; rfl

/-- Equal images under `Option.map` give equal images under `Option.bind`. -/
theorem Option.bind_eq_of_map_eq {a b : Type} (f : a → Option b) (x y : Option a)
    (h : x.map f = y.map f) : x.bind f = y.bind f := by
  cases x <;> cases y <;> simp_all

/-- Behaviour of the leaf-linking loop: lengths and false-edge start blocks
are preserved, consecutive leaves are chained
(`next_candidate_start_block` of the earlier equals `false_edge_start_block`
of the later, which is `Some`), and the last leaf's
`next_candidate_start_block` is untouched. -/
theorem linkLeafList_spec (ls ls' : List Candidate) (h : linkLeafList ls = some ls') :
    ls'.length = ls.length ∧
    (∀ i : Nat, (ls'[i]?).map Candidate.falseEdgeStartBlock =
      (ls[i]?).map Candidate.falseEdgeStartBlock) ∧
    (∀ i : Nat, i + 1 < ls'.length →
      (ls'[i]?).map Candidate.nextCandidateStartBlock =
        (ls'[i + 1]?).map Candidate.falseEdgeStartBlock ∧
      ((ls'[i + 1]?).bind Candidate.falseEdgeStartBlock).isSome = true) ∧
    (ls'.getLast?).map Candidate.nextCandidateStartBlock =
      (ls.getLast?).map Candidate.nextCandidateStartBlock := by
  induction ls using linkLeafList.induct generalizing ls' with
  | case1 =>
    simp only [linkLeafList, Option.some.injEq] at h
    subst h
    refine ⟨rfl, fun i => rfl, fun i hi => by simp at hi, rfl⟩
  | case2 c =>
    simp only [linkLeafList, Option.some.injEq] at h
    subst h
    refine ⟨rfl, fun i => rfl, fun i hi => by simp at hi, rfl⟩
  | case3 c next rest hsome hnone ih =>
    simp only [linkLeafList, hsome, if_true, hnone] at h
    cases h
  | case4 c next rest hsome lvs hlk ih =>
    simp only [linkLeafList, hsome, if_true, hlk, Option.some.injEq] at h
    subst h
    obtain ⟨ihlen, ihfe, ihpair, ihlast⟩ := ih lvs hlk
    refine ⟨by simpa using ihlen, ?_, ?_, ?_⟩
    · intro i
      cases i with
      | zero => simp
      | succ i => simpa using ihfe i
    · intro i hi
      cases i with
      | zero =>
        refine ⟨?_, ?_⟩
        · simp only [List.getElem?_cons_zero, List.getElem?_cons_succ, Option.map_some']
          rw [ihfe 0]
          simp
        · simp only [List.getElem?_cons_succ]
          rw [Option.bind_eq_of_map_eq _ _ _ (ihfe 0)]
          simpa using hsome
      | succ i =>
        simp only [List.getElem?_cons_succ]
        exact ihpair i (by simpa using hi)
    · cases lvs with
      | nil => simp at ihlen
      | cons x xs =>
        rw [List.getLast?_cons_cons, List.getLast?_cons_cons]
        rw [ihlast]
  | case5 c next rest hsome =>
    rw [linkLeafList, if_neg hsome] at h
    cases h

/-- Behaviour of the refutable tail: only the last leaf changes, and only its
`next_candidate_start_block`, which becomes the failure block. -/
theorem setLastNextCandidate_spec (ow : Nat) (ls ls' : List Candidate)
    (h : setLastNextCandidate ow ls = some ls') :
    ls'.length = ls.length ∧
    (∀ i : Nat, i + 1 < ls.length → ls'[i]? = ls[i]?) ∧
    (∀ i : Nat, (ls'[i]?).map Candidate.falseEdgeStartBlock =
      (ls[i]?).map Candidate.falseEdgeStartBlock) ∧
    (ls'.getLast?).map Candidate.nextCandidateStartBlock = some (some ow) := by
  induction ls using setLastNextCandidate.induct ow generalizing ls' with
  | case1 =>
    simp only [setLastNextCandidate] at h
    cases h
  | case2 c =>
    simp only [setLastNextCandidate, Option.some.injEq] at h
    subst h
    refine ⟨rfl, fun i hi => by simp at hi, ?_, by simp⟩
    intro i
    cases i with
    | zero => simp
    | succ i => simp
  | case3 c rest hne hnone ih =>
    cases rest with
    | nil => exact absurd rfl hne
    | cons x xs =>
      simp only [setLastNextCandidate, hnone] at h
      cases h
  | case4 c rest hne lvs hrest ih =>
    cases rest with
    | nil => exact absurd rfl hne
    | cons x xs =>
      simp only [setLastNextCandidate, hrest, Option.some.injEq] at h
      subst h
      obtain ⟨ihlen, ihpres, ihfe, ihlast⟩ := ih lvs hrest
      refine ⟨by simpa using ihlen, ?_, ?_, ?_⟩
      · intro i hi
        cases i with
        | zero => simp
        | succ i =>
          simp only [List.getElem?_cons_succ]
          exact ihpres i (by simpa using hi)
      · intro i
        cases i with
        | zero => simp
        | succ i => simpa using ihfe i
      · cases lvs with
        | nil => simp at ihlen
        | cons y ys =>
          rw [List.getLast?_cons_cons]
          exact ihlast

/-- C3: after `lowerMatchTree`, for every pair of consecutive leaf candidates
in original arm order the earlier leaf's `next_candidate_start_block` equals
the later leaf's `false_edge_start_block`, which is `Some` at that point; in
the refutable case the last leaf's `next_candidate_start_block` is the
returned otherwise/failure block. -/
theorem leaf_false_edge_linking
    (fuel block : Nat) (tryToPlace : Option Place) (candidates : List Candidate)
    (refutable : Bool) (cfg : Cfg) (ow : Nat) (ls : List Candidate) (cfg2 : Cfg)
    (h : lowerMatchTree fuel block tryToPlace candidates refutable cfg = some (ow, ls, cfg2)) :
    (∀ i : Nat, i + 1 < ls.length →
      (ls[i]?).map Candidate.nextCandidateStartBlock =
        (ls[i + 1]?).map Candidate.falseEdgeStartBlock ∧
      ((ls[i + 1]?).bind Candidate.falseEdgeStartBlock).isSome = true) ∧
    (refutable = true →
      (ls.getLast?).map Candidate.nextCandidateStartBlock = some (some ow)) := by
  unfold lowerMatchTree at h
  split at h
  · cases h
  rename_i r ow1 cands1 cfg1 hmc
  split at h
  · cases h
  rename_i r2 lvs1 hlv
  split at h
  · cases h
  rename_i r3 lvs2 hlk
  obtain ⟨hlen2, hfe2, hpair2, hlast2⟩ := linkLeafList_spec lvs1 lvs2 hlk
  cases hr : refutable with
  | false =>
    rw [hr] at h
    simp only [Bool.false_eq_true, if_false, Option.some.injEq, Prod.mk.injEq] at h
    obtain ⟨how, hls, hcfg⟩ := h
    subst how
    subst hls
    exact ⟨fun i hi => hpair2 i hi, fun hcontra => by cases hcontra⟩
  | true =>
    rw [hr] at h
    simp only [if_true] at h
    split at h
    · cases h
    rename_i r4 lvs3 hset
    simp only [Option.some.injEq, Prod.mk.injEq] at h
    obtain ⟨how, hls, hcfg⟩ := h
    subst how
    subst hls
    obtain ⟨hlen3, hpres3, hfe3, hlast3⟩ := setLastNextCandidate_spec ow1 lvs2 _ hset
    refine ⟨?_, fun _ => hlast3⟩
    intro i hi
    have hilen : i + 1 < lvs2.length := by rw [← hlen3]; exact hi
    constructor
    · rw [hpres3 i hilen, hfe3 (i + 1)]
      exact (hpair2 i (by omega)).1
    · rw [Option.bind_eq_of_map_eq _ _ _ (hfe3 (i + 1))]
      exact (hpair2 i (by omega)).2

/-- Two refutable single-pattern candidates testing the scrutinee place
directly (`if let`-style). -/
def c3cands : List Candidate :=
  [plainCandidate [pairConst [] true], plainCandidate [pairConst [] false]]

/-- Witness for C3 on a concrete refutable lowering of two candidates. -/
theorem leaf_false_edge_linking_witness :
    (match lowerMatchTree 20 0 (some []) c3cands true ⟨[BlockData.empty]⟩ with
     | some r =>
        (r.2.1[0]?).map Candidate.nextCandidateStartBlock =
          (r.2.1[1]?).map Candidate.falseEdgeStartBlock ∧
        (r.2.1.getLast?).map Candidate.nextCandidateStartBlock = some (some r.1)
     | none => False) := by
  have hsome : (lowerMatchTree 20 0 (some []) c3cands true ⟨[BlockData.empty]⟩).isSome = true := by
    decide
  cases hrun : lowerMatchTree 20 0 (some []) c3cands true ⟨[BlockData.empty]⟩ with
  | none => rw [hrun] at hsome; simp at hsome
  | some r =>
    obtain ⟨ow, ls, cfg'⟩ := r
    have h2 := leaf_false_edge_linking 20 0 (some []) _ true _ _ _ _ hrun
    have hlen : ls.length = 2 := by
      have hx : (lowerMatchTree 20 0 (some []) c3cands true ⟨[BlockData.empty]⟩).map
          (fun r => r.2.1.length) = some 2 := by decide
      rw [hrun] at hx
      simpa using hx
    exact ⟨(h2.1 0 (by omega)).1, h2.2 rfl⟩

/-! ## Lemmas about `merge_trivial_subcandidates` -/

/-- Gotos written by the merge loop survive the rest of the loop (every write
is the same `goto anyMatches`). -/
theorem mergeGotos_preserves_goto (anyMatches : Nat) (subs : List Candidate)
    (cfg : Cfg) (acc : Option Nat) (lastOw : Option Nat) (cfg' : Cfg) (b : Nat)
    (hb : (cfg.block b).term = some (.goto anyMatches))
    (h : mergeGotos anyMatches subs cfg acc = some (lastOw, cfg')) :
    (cfg'.block b).term = some (.goto anyMatches) := by
  induction subs generalizing cfg acc with
  | nil =>
    simp only [mergeGotos, Option.some.injEq, Prod.mk.injEq] at h
    rw [← h.2]
    exact hb
  | cons sub subs ih =>
    simp only [mergeGotos] at h
    cases hpb : sub.preBindingBlock with
    | none => rw [hpb] at h; cases h
    | some pb =>
      rw [hpb] at h
      refine ih _ _ ?_ h
      by_cases hbb : b = pb
      · subst hbb
        rw [Cfg.goto, Cfg.block_terminate_self]
      · rw [Cfg.goto, Cfg.block_terminate_other _ _ _ _ hbb]
        exact hb

/-- The merge loop routes every subcandidate's pre-binding block to
`anyMatches` and ends with the last subcandidate's otherwise block in the
`last_otherwise` accumulator. -/
theorem mergeGotos_spec (anyMatches : Nat) (subs : List Candidate)
    (cfg : Cfg) (acc : Option Nat) (lastOw : Option Nat) (cfg' : Cfg)
    (h : mergeGotos anyMatches subs cfg acc = some (lastOw, cfg')) :
    (∀ sub ∈ subs, ∃ pb, sub.preBindingBlock = some pb ∧
      (cfg'.block pb).term = some (.goto anyMatches)) ∧
    lastOw = ((subs.getLast?).map Candidate.otherwiseBlock).getD acc := by
  induction subs generalizing cfg acc with
  | nil =>
    simp only [mergeGotos, Option.some.injEq, Prod.mk.injEq] at h
    exact ⟨fun sub hsub => absurd hsub (by simp), by simp [h.1.symm]⟩
  | cons sub subs ih =>
    simp only [mergeGotos] at h
    cases hpb : sub.preBindingBlock with
    | none => rw [hpb] at h; cases h
    | some pb =>
      rw [hpb] at h
      obtain ⟨ihall, ihlast⟩ := ih _ _ h
      constructor
      · intro s hs
        rcases List.mem_cons.mp hs with hs | hs
        · subst hs
          refine ⟨pb, hpb, ?_⟩
          refine mergeGotos_preserves_goto anyMatches subs _ _ _ _ pb ?_ h
          rw [Cfg.goto, Cfg.block_terminate_self]
        · exact ihall s hs
      · cases subs with
        | nil => simpa using ihlast
        | cons x xs => rw [List.getLast?_cons_cons]; simpa using ihlast

/-- Full description of the merge branch of `merge_trivial_subcandidates`
(no guard, non-empty subcandidate list, all subcandidates trivial): the
subcandidates collapse into one fresh shared pre-binding block, the or-span
is taken, the otherwise block becomes the last subcandidate's, and the
false-edge start block is taken from the first subcandidate when unset. -/
theorem mergeTrivial_canMerge_spec
    (fuel : Nat) (c : Candidate) (cfg : Cfg) (c' : Candidate) (cfg' : Cfg)
    (hguard : c.hasGuard = false)
    (hsubs : c.subcandidates ≠ [])
    (htriv : c.subcandidates.all
      (fun sub => sub.subcandidates.isEmpty && sub.extraData.isEmpty) = true)
    (h : mergeTrivialSubcandidates fuel c cfg = some (c', cfg')) :
    c'.subcandidates = [] ∧
    c'.preBindingBlock = some cfg.blocks.length ∧
    c'.orSpan = none ∧
    (∀ sub ∈ c.subcandidates, ∃ pb, sub.preBindingBlock = some pb ∧
      (cfg'.block pb).term = some (Term.goto cfg.blocks.length)) ∧
    (∃ lastOw, (c.subcandidates.getLast?).map Candidate.otherwiseBlock =
        some (some lastOw) ∧
      c'.otherwiseBlock = some lastOw) ∧
    (c.falseEdgeStartBlock.isNone = true →
      c'.falseEdgeStartBlock = (c.subcandidates.head?).bind Candidate.falseEdgeStartBlock) ∧
    (∀ x, c.falseEdgeStartBlock = some x → c'.falseEdgeStartBlock = some x) := by
  have hcond : (c.subcandidates.isEmpty || c.hasGuard) = false := by
    rw [hguard, List.isEmpty_eq_false_iff_exists_mem.mpr]
    · simp
    · cases hc : c.subcandidates with
      | nil => exact absurd hc hsubs
      | cons x xs => exact ⟨x, by simp [hc]⟩
  unfold mergeTrivialSubcandidates at h
  rw [hcond] at h
  simp only [Bool.false_eq_true, if_false, htriv, if_true, Cfg.startNewBlock] at h
  split at h
  · cases h
  rename_i sp hsp
  split at h
  · cases h
  rename_i r lastOtherwise cfg1 hmg
  split at h
  · cases h
  rename_i lo loVal
  simp only [Option.some.injEq, Prod.mk.injEq] at h
  obtain ⟨hc', hcfg1⟩ := h
  subst hc' hcfg1
  have hsubeq : ((if (c.setOrSpan none).falseEdgeStartBlock.isNone = true then
      (c.setOrSpan none).setFalseEdgeStartBlock
        (match (c.setOrSpan none).subcandidates with
          | s0 :: _ => s0.falseEdgeStartBlock
          | [] => none)
      else c.setOrSpan none)).subcandidates = c.subcandidates := by
    split <;> simp
  rw [hsubeq] at hmg
  obtain ⟨hall, hlastval⟩ := mergeGotos_spec _ _ _ _ _ _ hmg
  refine ⟨by simp, by simp, ?_, ?_, ?_, ?_, ?_⟩
  · simp only [Candidate.orSpan_setOtherwiseBlock, Candidate.orSpan_setPreBindingBlock,
      Candidate.orSpan_setSubcandidates]
    split <;> simp
  · intro sub hsub
    exact hall sub hsub
  · cases hlast : c.subcandidates.getLast? with
    | none =>
      rw [List.getLast?_eq_none_iff] at hlast
      exact absurd hlast hsubs
    | some s =>
      rw [hlast] at hlastval
      simp only [Option.map_some', Option.getD_some] at hlastval
      refine ⟨loVal, ?_, by simp⟩
      simp [← hlastval]
  · intro hfe
    simp only [Candidate.falseEdgeStartBlock_setOtherwiseBlock,
      Candidate.falseEdgeStartBlock_setPreBindingBlock,
      Candidate.falseEdgeStartBlock_setSubcandidates]
    rw [if_pos (by simpa using hfe)]
    simp only [Candidate.falseEdgeStartBlock_setFalseEdgeStartBlock,
      Candidate.subcandidates_setOrSpan]
    cases hc : c.subcandidates with
    | nil => exact absurd hc hsubs
    | cons s0 rest => simp
  · intro x hx
    simp only [Candidate.falseEdgeStartBlock_setOtherwiseBlock,
      Candidate.falseEdgeStartBlock_setPreBindingBlock,
      Candidate.falseEdgeStartBlock_setSubcandidates]
    rw [if_neg (by simp [hx])]
    simpa using hx

/-- C6: when every subcandidate produced by or-pattern expansion is trivial
(no subcandidates of its own, no bindings or ascriptions) and the parent has
no guard, `merge_trivial_subcandidates` collapses them: the parent's
subcandidate list becomes empty, its pre-binding block becomes a single fresh
block to which every former subcandidate's pre-binding block jumps, and its
otherwise block becomes the single shared one — the last subcandidate's. -/
theorem merge_trivial_subcandidates_collapse
    (fuel : Nat) (c : Candidate) (cfg : Cfg) (c' : Candidate) (cfg' : Cfg)
    (hguard : c.hasGuard = false)
    (hsubs : c.subcandidates ≠ [])
    (htriv : c.subcandidates.all
      (fun sub => sub.subcandidates.isEmpty && sub.extraData.isEmpty) = true)
    (h : mergeTrivialSubcandidates fuel c cfg = some (c', cfg')) :
    c'.subcandidates = [] ∧
    c'.preBindingBlock = some cfg.blocks.length ∧
    (∀ sub ∈ c.subcandidates, ∃ pb, sub.preBindingBlock = some pb ∧
      (cfg'.block pb).term = some (Term.goto cfg.blocks.length)) ∧
    (∃ lastOw, (c.subcandidates.getLast?).map Candidate.otherwiseBlock =
        some (some lastOw) ∧
      c'.otherwiseBlock = some lastOw) := by
  obtain ⟨h1, h2, _, h4, h5, _, _⟩ :=
    mergeTrivial_canMerge_spec fuel c cfg c' cfg' hguard hsubs htriv h
  exact ⟨h1, h2, h4, h5⟩

/-- A trivial merged subcandidate (first alternative). -/
def c6sub1 : Candidate := .mk [] [] false emptyExtraData none (some 2) (some 3) none none

/-- A trivial merged subcandidate (second alternative). -/
def c6sub2 : Candidate := .mk [] [] false emptyExtraData none (some 4) (some 5) none none

/-- An expanded, guard-free or-pattern candidate with two trivial
subcandidates. -/
def c6parent : Candidate := .mk [] [c6sub1, c6sub2] false emptyExtraData (some 7)
  none none none none

/-- A CFG with six allocated blocks. -/
def c6cfg : Cfg := ⟨List.replicate 6 BlockData.empty⟩

/-- Witness for C6 on a concrete merge of two trivial subcandidates. -/
theorem merge_trivial_subcandidates_collapse_witness :
    (match mergeTrivialSubcandidates 10 c6parent c6cfg with
     | some r => r.1.subcandidates = [] ∧ r.1.preBindingBlock = some 6 ∧
         r.1.otherwiseBlock = some 5 ∧ (r.2.block 2).term = some (.goto 6) ∧
         (r.2.block 4).term = some (.goto 6)
     | none => False) := by
  have hsome : (mergeTrivialSubcandidates 10 c6parent c6cfg).isSome = true := by decide
  cases hrun : mergeTrivialSubcandidates 10 c6parent c6cfg with
  | none => rw [hrun] at hsome; simp at hsome
  | some r =>
    obtain ⟨c', cfg'⟩ := r
    have h2 := merge_trivial_subcandidates_collapse 10 c6parent c6cfg c' cfg'
      (by decide) (by simp [c6parent, Candidate.subcandidates]) (by decide) hrun
    obtain ⟨hs, hp, hall, lastOw, hlast, how⟩ := h2
    have hg1 := hall c6sub1 (by simp [c6parent, Candidate.subcandidates])
    have hg2 := hall c6sub2 (by simp [c6parent, Candidate.subcandidates])
    obtain ⟨pb1, hpb1, ht1⟩ := hg1
    obtain ⟨pb2, hpb2, ht2⟩ := hg2
    have hpb1v : pb1 = 2 := by
      have : some (2 : Nat) = some pb1 := by rw [← hpb1]; decide
      exact (Option.some.inj this).symm
    have hpb2v : pb2 = 4 := by
      have : some (4 : Nat) = some pb2 := by rw [← hpb2]; decide
      exact (Option.some.inj this).symm
    have hlv : lastOw = 5 := by
      have hx : (c6parent.subcandidates.getLast?).map Candidate.otherwiseBlock =
          some (some 5) := by decide
      rw [hx] at hlast
      simpa using hlast.symm
    subst hpb1v hpb2v hlv
    have hlen : c6cfg.blocks.length = 6 := by decide
    rw [hlen] at hp ht1 ht2
    exact ⟨hs, hp, how, ht1, ht2⟩

/-- Unreachable terminators written while terminating never leaves survive
later writes of the same loop (every write is `Unreachable`). -/
theorem terminateLeafBlocks_preserves_unreachable (lvs : List Candidate)
    (cfg cfg' : Cfg) (b : Nat)
    (hb : (cfg.block b).term = some .unreachable)
    (h : terminateLeafBlocks lvs cfg = some cfg') :
    (cfg'.block b).term = some .unreachable := by
  induction lvs generalizing cfg with
  | nil =>
    simp only [terminateLeafBlocks, Option.some.injEq] at h
    rw [← h]
    exact hb
  | cons leaf rest ih =>
    simp only [terminateLeafBlocks] at h
    cases hpb : leaf.preBindingBlock with
    | none => rw [hpb] at h; cases h
    | some pb =>
      rw [hpb] at h
      refine ih _ ?_ h
      by_cases hbb : b = pb
      · subst hbb
        rw [Cfg.block_terminate_self]
      · rw [Cfg.block_terminate_other _ _ _ _ hbb]
        exact hb

/-- Terminating never leaves gives every leaf's pre-binding block an
`Unreachable` terminator. -/
theorem terminateLeafBlocks_spec (lvs : List Candidate) (cfg cfg' : Cfg)
    (h : terminateLeafBlocks lvs cfg = some cfg') :
    ∀ leaf ∈ lvs, ∃ pb, leaf.preBindingBlock = some pb ∧
      (cfg'.block pb).term = some Term.unreachable := by
  induction lvs generalizing cfg with
  | nil => intro leaf hleaf; exact absurd hleaf (by simp)
  | cons l rest ih =>
    simp only [terminateLeafBlocks] at h
    cases hpb : l.preBindingBlock with
    | none => rw [hpb] at h; cases h
    | some pb =>
      rw [hpb] at h
      intro leaf hleaf
      rcases List.mem_cons.mp hleaf with hl | hl
      · subst hl
        refine ⟨pb, hpb, ?_⟩
        refine terminateLeafBlocks_preserves_unreachable rest _ _ pb ?_ h
        rw [Cfg.block_terminate_self]
      · exact ih _ h leaf hl

/-- Unreachable terminators survive the never filter (all its writes are
`Unreachable` terminators). -/
theorem filterNever_preserves_unreachable (fuel : Nat) (subs : List Candidate)
    (cfg : Cfg) (subs' : List Candidate) (cfg' : Cfg) (b : Nat)
    (hb : (cfg.block b).term = some .unreachable)
    (h : filterNeverSubcandidates fuel subs cfg = some (subs', cfg')) :
    (cfg'.block b).term = some .unreachable := by
  induction subs generalizing cfg subs' with
  | nil =>
    simp only [filterNeverSubcandidates, Option.some.injEq, Prod.mk.injEq] at h
    rw [← h.2]
    exact hb
  | cons c cs ih =>
    simp only [filterNeverSubcandidates] at h
    by_cases hnev : c.extraData.isNever = true
    · rw [if_pos hnev] at h
      cases hlv : leavesWork fuel [c] with
      | none => simp only [hlv] at h; cases h
      | some lvs =>
        simp only [hlv] at h
        cases htm : terminateLeafBlocks lvs cfg with
        | none => simp only [htm] at h; cases h
        | some cfg1 =>
          simp only [htm] at h
          exact ih _ _ (terminateLeafBlocks_preserves_unreachable lvs cfg cfg1 b hb htm) h
    · rw [if_neg hnev] at h
      cases hrec : filterNeverSubcandidates fuel cs cfg with
      | none => simp only [hrec] at h; cases h
      | some r =>
        obtain ⟨cs1, cfg1⟩ := r
        simp only [hrec] at h
        simp only [Option.some.injEq, Prod.mk.injEq] at h
        obtain ⟨hsubs1, hcfg1⟩ := h
        subst hcfg1
        exact ih _ _ hb hrec

/-- Full description of the never filter: the surviving subcandidates are
exactly the non-never ones (in order), and every removed never
subcandidate's leaves got `Unreachable` terminators that survive to the
final CFG. -/
theorem filterNever_spec (fuel : Nat) (subs : List Candidate) (cfg : Cfg)
    (subs' : List Candidate) (cfg' : Cfg)
    (h : filterNeverSubcandidates fuel subs cfg = some (subs', cfg')) :
    subs' = subs.filter (fun s => !s.extraData.isNever) ∧
    (∀ s ∈ subs, s.extraData.isNever = true →
      ∃ lvs, leavesWork fuel [s] = some lvs ∧
        ∀ leaf ∈ lvs, ∃ pb, leaf.preBindingBlock = some pb ∧
          (cfg'.block pb).term = some Term.unreachable) := by
  induction subs generalizing cfg subs' with
  | nil =>
    simp only [filterNeverSubcandidates, Option.some.injEq, Prod.mk.injEq] at h
    exact ⟨h.1.symm, fun s hs => absurd hs (by simp)⟩
  | cons c cs ih =>
    simp only [filterNeverSubcandidates] at h
    by_cases hnev : c.extraData.isNever = true
    · rw [if_pos hnev] at h
      cases hlv : leavesWork fuel [c] with
      | none => simp only [hlv] at h; cases h
      | some lvs =>
        simp only [hlv] at h
        cases htm : terminateLeafBlocks lvs cfg with
        | none => simp only [htm] at h; cases h
        | some cfg1 =>
          simp only [htm] at h
          obtain ⟨ihfil, ihterm⟩ := ih _ _ h
          constructor
          · rw [ihfil, List.filter_cons_of_neg (by simp [hnev])]
          · intro s hs hsnev
            rcases List.mem_cons.mp hs with hl | hl
            · subst hl
              refine ⟨lvs, hlv, ?_⟩
              intro leaf hleaf
              obtain ⟨pb, hpb, hterm⟩ := terminateLeafBlocks_spec lvs cfg cfg1 htm leaf hleaf
              exact ⟨pb, hpb, filterNever_preserves_unreachable fuel cs cfg1 _ _ pb hterm h⟩
            · exact ihterm s hl hsnev
    · rw [if_neg hnev] at h
      cases hrec : filterNeverSubcandidates fuel cs cfg with
      | none => simp only [hrec] at h; cases h
      | some r =>
        obtain ⟨cs1, cfg1⟩ := r
        simp only [hrec] at h
        simp only [Option.some.injEq, Prod.mk.injEq] at h
        obtain ⟨hsubs, hcfg⟩ := h
        subst hcfg
        obtain ⟨ihfil, ihterm⟩ := ih _ _ hrec
        constructor
        · rw [← hsubs, ihfil,
            List.filter_cons_of_pos (by simp [Bool.not_eq_true] at hnev; simp [hnev])]
        · intro s hs hsnev
          rcases List.mem_cons.mp hs with hl | hl
          · subst hl
            exact absurd hsnev hnev
          · exact ihterm s hl hsnev

/-- Full description of the retain branch of `merge_trivial_subcandidates`
(no guard, non-empty subcandidate list, not all subcandidates trivial): the
never subcandidates are filtered out with their blocks terminated, the
or-span and false-edge start block are untouched, and a candidate left with
no subcandidates gets a fresh pre-binding block. -/
theorem mergeTrivial_retain_spec
    (fuel : Nat) (c : Candidate) (cfg : Cfg) (c' : Candidate) (cfg' : Cfg)
    (hguard : c.hasGuard = false)
    (hsubs : c.subcandidates ≠ [])
    (htriv : c.subcandidates.all
      (fun sub => sub.subcandidates.isEmpty && sub.extraData.isEmpty) = false)
    (h : mergeTrivialSubcandidates fuel c cfg = some (c', cfg')) :
    ∃ subs1 cfg1,
      filterNeverSubcandidates fuel c.subcandidates cfg = some (subs1, cfg1) ∧
      c'.subcandidates = subs1 ∧ c'.orSpan = c.orSpan ∧
      c'.falseEdgeStartBlock = c.falseEdgeStartBlock ∧
      c'.hasGuard = c.hasGuard ∧ c'.extraData = c.extraData ∧
      (∀ b, cfg'.block b = cfg1.block b) ∧
      (subs1 = [] → c'.preBindingBlock = some cfg1.blocks.length) ∧
      (subs1 ≠ [] → c'.preBindingBlock = c.preBindingBlock ∧ cfg' = cfg1) := by
  have hcond : (c.subcandidates.isEmpty || c.hasGuard) = false := by
    rw [hguard, List.isEmpty_eq_false_iff_exists_mem.mpr]
    · simp
    · cases hc : c.subcandidates with
      | nil => exact absurd hc hsubs
      | cons x xs => exact ⟨x, by simp [hc]⟩
  unfold mergeTrivialSubcandidates at h
  rw [hcond] at h
  simp only [Bool.false_eq_true, if_false, htriv] at h
  cases hfil : filterNeverSubcandidates fuel c.subcandidates cfg with
  | none => simp only [hfil] at h; cases h
  | some r =>
    obtain ⟨subs1, cfg1⟩ := r
    simp only [hfil] at h
    refine ⟨subs1, cfg1, rfl, ?_⟩
    by_cases hemp : subs1.isEmpty = true
    · rw [if_pos hemp] at h
      simp only [Cfg.startNewBlock, Option.some.injEq, Prod.mk.injEq] at h
      obtain ⟨hc', hcfg'⟩ := h
      subst hc' hcfg'
      have hemp' : subs1 = [] := List.isEmpty_iff.mp hemp
      refine ⟨by simp, by simp, by simp, by simp, by simp, ?_, fun _ => by simp,
        fun hne => absurd hemp' hne⟩
      intro b
      exact Cfg.block_startNewBlock cfg1 b
    · rw [if_neg hemp] at h
      simp only [Option.some.injEq, Prod.mk.injEq] at h
      obtain ⟨hc', hcfg'⟩ := h
      subst hc' hcfg'
      exact ⟨by simp, by simp, by simp, by simp, by simp, fun b => rfl,
        fun he => absurd he (by simpa using hemp), fun _ => ⟨by simp, rfl⟩⟩

@[simp] theorem Candidate.matchPairs_fromFlatPat (fp : FlatPat) (g : Bool) :
    (Candidate.fromFlatPat fp g).matchPairs = fp.matchPairs := rfl

@[simp] theorem Candidate.subcandidates_fromFlatPat (fp : FlatPat) (g : Bool) :
    (Candidate.fromFlatPat fp g).subcandidates = [] := rfl

@[simp] theorem Candidate.hasGuard_fromFlatPat (fp : FlatPat) (g : Bool) :
    (Candidate.fromFlatPat fp g).hasGuard = g := rfl

@[simp] theorem Candidate.extraData_fromFlatPat (fp : FlatPat) (g : Bool) :
    (Candidate.fromFlatPat fp g).extraData = fp.extraData := rfl

@[simp] theorem Candidate.orSpan_fromFlatPat (fp : FlatPat) (g : Bool) :
    (Candidate.fromFlatPat fp g).orSpan = none := rfl

@[simp] theorem Candidate.preBindingBlock_fromFlatPat (fp : FlatPat) (g : Bool) :
    (Candidate.fromFlatPat fp g).preBindingBlock = none := rfl

@[simp] theorem Candidate.otherwiseBlock_fromFlatPat (fp : FlatPat) (g : Bool) :
    (Candidate.fromFlatPat fp g).otherwiseBlock = none := rfl

@[simp] theorem Candidate.falseEdgeStartBlock_fromFlatPat (fp : FlatPat) (g : Bool) :
    (Candidate.fromFlatPat fp g).falseEdgeStartBlock = none := rfl

@[simp] theorem Candidate.nextCandidateStartBlock_fromFlatPat (fp : FlatPat) (g : Bool) :
    (Candidate.fromFlatPat fp g).nextCandidateStartBlock = none := rfl

/-- Full description of `create_or_subcandidates`: it fills `or_span`, builds
one fresh subcandidate per alternative (each inheriting `has_guard`), and
initializes only the first subcandidate's `false_edge_start_block` — to the
parent's current value. -/
theorem createOrSubcandidates_spec (c : Candidate) (pair : MatchPair)
    (c' : Candidate) (h : createOrSubcandidates c pair = some c') :
    ∃ pats, pair.testCase = .orPats pats ∧ pats ≠ [] ∧
      c'.orSpan = some pair.patternSpan ∧
      c'.subcandidates ≠ [] ∧
      c'.subcandidates.length = pats.length ∧
      (c'.subcandidates.head?).map Candidate.falseEdgeStartBlock =
        some c.falseEdgeStartBlock ∧
      (∀ s ∈ c'.subcandidates.tail, s.falseEdgeStartBlock = none) ∧
      c'.falseEdgeStartBlock = c.falseEdgeStartBlock ∧
      (∀ s ∈ c'.subcandidates, s.hasGuard = c.hasGuard) ∧
      c'.hasGuard = c.hasGuard := by
  unfold createOrSubcandidates at h
  cases htc : pair.testCase with
  | constant v => rw [htc] at h; cases h
  | orPats pats =>
    rw [htc] at h
    cases hpats : pats with
    | nil =>
      simp only [hpats, List.map_nil] at h
      cases h
    | cons p ps =>
      simp only [hpats, List.map_cons] at h
      simp only [Option.some.injEq] at h
      subst h
      refine ⟨p :: ps, rfl, by simp, by simp, by simp, by simp, by simp,
        ?_, by simp, ?_, by simp⟩
      · simp only [Candidate.subcandidates_setSubcandidates, List.tail_cons]
        intro s hs
        obtain ⟨fp, _, hfp⟩ := List.mem_map.mp hs
        rw [← hfp]
        simp
      · intro s hs
        simp only [Candidate.subcandidates_setSubcandidates] at hs
        rcases List.mem_cons.mp hs with hl | hl
        · subst hl; simp
        · obtain ⟨fp, _, hfp⟩ := List.mem_map.mp hl
          rw [← hfp]
          simp

/-- C5 (amended): `or_span` is `Some` iff `subcandidates` is non-empty after
or-pattern expansion and after trivial-subcandidate merging; after
never-subcandidate filtering the forward direction (non-empty subcandidates
imply a `Some` or-span) still holds, but when the filter removes every
subcandidate the candidate is left with `or_span` still `Some` and an empty
subcandidate list. -/
theorem or_span_iff_subcandidates :
    (∀ c pair c', createOrSubcandidates c pair = some c' →
      (c'.orSpan.isSome = true ∧ c'.subcandidates ≠ [])) ∧
    (∀ fuel c cfg c' cfg', c.hasGuard = false → c.subcandidates ≠ [] →
      c.subcandidates.all
        (fun sub => sub.subcandidates.isEmpty && sub.extraData.isEmpty) = true →
      mergeTrivialSubcandidates fuel c cfg = some (c', cfg') →
      (c'.orSpan = none ∧ c'.subcandidates = [])) ∧
    (∀ fuel c cfg c' cfg', c.hasGuard = false → c.subcandidates ≠ [] →
      c.subcandidates.all
        (fun sub => sub.subcandidates.isEmpty && sub.extraData.isEmpty) = false →
      c.orSpan.isSome = true →
      mergeTrivialSubcandidates fuel c cfg = some (c', cfg') →
      ((c'.subcandidates ≠ [] → c'.orSpan.isSome = true) ∧
       (c'.subcandidates = [] → c'.orSpan = c.orSpan))) := by
  refine ⟨?_, ?_, ?_⟩
  · intro c pair c' h
    obtain ⟨pats, _, _, hosp, hsubs, _⟩ := createOrSubcandidates_spec c pair c' h
    exact ⟨by simp [hosp], hsubs⟩
  · intro fuel c cfg c' cfg' hguard hsubs htriv h
    obtain ⟨h1, _, h3, _⟩ := mergeTrivial_canMerge_spec fuel c cfg c' cfg' hguard hsubs htriv h
    exact ⟨h3, h1⟩
  · intro fuel c cfg c' cfg' hguard hsubs htriv horsp h
    obtain ⟨subs1, cfg1, _, _, hosp, _⟩ :=
      mergeTrivial_retain_spec fuel c cfg c' cfg' hguard hsubs htriv h
    exact ⟨fun _ => by rw [hosp]; exact horsp, fun _ => hosp⟩

/-- A by-value binding carried by a never alternative (making its extra data
non-empty, so the subcandidates cannot be trivially merged). -/
def c5neverBinding : Binding := ⟨0, [], 0, false⟩

/-- A never subcandidate with a binding. -/
def c5sub1 : Candidate := .mk [] [] false ⟨0, [c5neverBinding], [], true⟩ none
  (some 1) none none none

/-- A never subcandidate without bindings. -/
def c5sub2 : Candidate := .mk [] [] false ⟨0, [], [], true⟩ none (some 2) none none none

/-- An expanded or-pattern candidate whose alternatives are all never
patterns and cannot be merged. -/
def c5parent : Candidate := .mk [] [c5sub1, c5sub2] false emptyExtraData (some 5)
  none none none none

/-- A CFG with three allocated blocks. -/
def c5cfg : Cfg := ⟨List.replicate 3 BlockData.empty⟩

/-- Counterexample to C5 as stated: when never-subcandidate filtering removes
every subcandidate, the resulting candidate has `or_span = some 5` while its
subcandidate list is empty — the claimed iff fails at that point. -/
theorem or_span_iff_subcandidates_counterexample :
    ((mergeTrivialSubcandidates 10 c5parent c5cfg).map fun r =>
      (r.1.orSpan, r.1.subcandidates.isEmpty)) = some (some 5, true) := by decide

/-- A two-alternative or-pattern match pair (span 9). -/
def orPairW : MatchPair := .mk (some []) (.orPats
  [.mk [pairConst [] true] emptyExtraData, .mk [pairConst [] false] emptyExtraData]) [] 9

/-- Witness for C5's amended theorem on concrete expansion, merge, and
all-never filtering runs. -/
theorem or_span_iff_subcandidates_witness :
    (match createOrSubcandidates (plainCandidate []) orPairW with
     | some c' => c'.orSpan.isSome = true ∧ c'.subcandidates ≠ []
     | none => False) ∧
    (match mergeTrivialSubcandidates 10 c6parent c6cfg with
     | some r => r.1.orSpan = none ∧ r.1.subcandidates = []
     | none => False) ∧
    (match mergeTrivialSubcandidates 10 c5parent c5cfg with
     | some r => r.1.subcandidates = [] → r.1.orSpan = c5parent.orSpan
     | none => False) := by
  refine ⟨?_, ?_, ?_⟩
  · have hsome : (createOrSubcandidates (plainCandidate []) orPairW).isSome = true := by decide
    cases hrun : createOrSubcandidates (plainCandidate []) orPairW with
    | none => rw [hrun] at hsome; simp at hsome
    | some c' => exact or_span_iff_subcandidates.1 _ _ _ hrun
  · have hsome : (mergeTrivialSubcandidates 10 c6parent c6cfg).isSome = true := by decide
    cases hrun : mergeTrivialSubcandidates 10 c6parent c6cfg with
    | none => rw [hrun] at hsome; simp at hsome
    | some r =>
      exact or_span_iff_subcandidates.2.1 10 c6parent c6cfg r.1 r.2 (by decide)
        (by simp [c6parent, Candidate.subcandidates]) (by decide) (by rw [← hrun])
  · have hsome : (mergeTrivialSubcandidates 10 c5parent c5cfg).isSome = true := by decide
    cases hrun : mergeTrivialSubcandidates 10 c5parent c5cfg with
    | none => rw [hrun] at hsome; simp at hsome
    | some r =>
      exact fun hemp =>
        (or_span_iff_subcandidates.2.2 10 c5parent c5cfg r.1 r.2 (by decide)
          (by simp [c5parent, Candidate.subcandidates]) (by decide) (by decide)
          (by rw [← hrun])).2 hemp

/-- C8 (amended): for an unguarded expanded candidate whose subcandidates
cannot be trivially merged, every `is_never` subcandidate is removed from the
subcandidate list before binding and guard lowering run, and each of its
leaves' pre-binding blocks is terminated `Unreachable`; independently, the
guard-and-binding step emits no statement whatsoever for an `is_never`
candidate (no binding, ascription, or guard code) and terminates its block
`Unreachable`.  (For a guarded parent `merge_trivial_subcandidates` returns
early, so `is_never` subcandidates can remain in the list; they are then
neutralized by the unreachable path of the guard-and-binding step.) -/
theorem never_subcandidates_excluded :
    (∀ fuel c cfg c' cfg', c.hasGuard = false → c.subcandidates ≠ [] →
      c.subcandidates.all
        (fun sub => sub.subcandidates.isEmpty && sub.extraData.isEmpty) = false →
      mergeTrivialSubcandidates fuel c cfg = some (c', cfg') →
      ((∀ s ∈ c'.subcandidates, s.extraData.isNever = false) ∧
       (∀ s ∈ c.subcandidates, s.extraData.isNever = true →
         ∃ lvs, leavesWork fuel [s] = some lvs ∧
           ∀ leaf ∈ lvs, ∃ pb, leaf.preBindingBlock = some pb ∧
             (cfg'.block pb).term = some Term.unreachable))) ∧
    (∀ lowerGuard localFor fakeBorrows hasGuardArm emitStorageLive candidate
        parentData cfg res cfg',
      candidate.extraData.isNever = true →
      bindAndGuardMatchedCandidate lowerGuard localFor fakeBorrows hasGuardArm
        emitStorageLive candidate parentData cfg = some (res, cfg') →
      ((∀ b, (cfg'.block b).stmts = (cfg.block b).stmts) ∧
       (∃ blk, (cfg'.block blk).term = some Term.unreachable))) := by
  constructor
  · intro fuel c cfg c' cfg' hguard hsubs htriv h
    obtain ⟨subs1, cfg1, hfil, hsubs', _, _, _, _, hblocks, _⟩ :=
      mergeTrivial_retain_spec fuel c cfg c' cfg' hguard hsubs htriv h
    obtain ⟨hfilter, hterm⟩ := filterNever_spec fuel c.subcandidates cfg subs1 cfg1 hfil
    constructor
    · intro s hs
      rw [hsubs', hfilter] at hs
      have := List.of_mem_filter hs
      simpa using this
    · intro s hs hsnev
      obtain ⟨lvs, hlvs, hleaf⟩ := hterm s hs hsnev
      refine ⟨lvs, hlvs, ?_⟩
      intro leaf hl
      obtain ⟨pb, hpb, ht⟩ := hleaf leaf hl
      refine ⟨pb, hpb, ?_⟩
      rw [hblocks pb]
      exact ht
  · intro lowerGuard localFor fakeBorrows hasGuardArm emitStorageLive candidate
      parentData cfg res cfg' hnev h
    unfold bindAndGuardMatchedCandidate at h
    by_cases hmp : candidate.matchPairs.isEmpty = true
    · rw [if_neg (by simp [hmp])] at h
      cases hpb : candidate.preBindingBlock with
      | none => simp only [hpb] at h; cases h
      | some pb =>
        simp only [hpb] at h
        by_cases hnext : candidate.nextCandidateStartBlock.isSome = true
        · rw [if_pos hnext] at h
          rw [hnev] at h
          simp only [if_true, Cfg.startNewBlock, Option.some.injEq, Prod.mk.injEq] at h
          obtain ⟨hres, hcfg'⟩ := h
          subst hcfg'
          constructor
          · intro b
            rw [Cfg.block_append_empty, Cfg.stmts_terminate]
            cases hn : candidate.nextCandidateStartBlock with
            | none => rw [hn] at hnext; simp at hnext
            | some nx =>
              simp only [falseEdges, hn]
              rw [Cfg.stmts_terminate, Cfg.block_append_empty]
          · refine ⟨cfg.blocks.length, ?_⟩
            rw [Cfg.block_append_empty, Cfg.block_terminate_self]
        · rw [if_neg hnext] at h
          rw [hnev] at h
          simp only [if_true, Cfg.startNewBlock, Option.some.injEq, Prod.mk.injEq] at h
          obtain ⟨hres, hcfg'⟩ := h
          subst hcfg'
          constructor
          · intro b
            rw [Cfg.block_append_empty, Cfg.stmts_terminate]
          · refine ⟨pb, ?_⟩
            rw [Cfg.block_append_empty, Cfg.block_terminate_self]
    · rw [if_pos (by simp [Bool.not_eq_true] at hmp; simp [hmp])] at h
      cases h

/-- A guarded never subcandidate. -/
def c8sub : Candidate := .mk [] [] true ⟨0, [], [], true⟩ none (some 1) none none none

/-- A guarded expanded or-pattern candidate with a never alternative. -/
def c8parent : Candidate := .mk [] [c8sub] true emptyExtraData (some 4) none none none none

/-- Counterexample to C8 as stated: for a guarded parent,
`merge_trivial_subcandidates` returns early, so the `is_never` subcandidate
is not removed from the subcandidates list before binding and guard lowering
run. -/
theorem never_subcandidates_excluded_counterexample :
    ((mergeTrivialSubcandidates 10 c8parent c5cfg).map fun r =>
      r.1.subcandidates.any fun s => s.extraData.isNever) = some true := by decide

/-- A never alternative with a binding (blocking trivial merging). -/
def c8nevSub : Candidate := .mk [] [] false ⟨0, [c5neverBinding], [], true⟩ none
  (some 1) none none none

/-- A surviving non-never alternative. -/
def c8okSub : Candidate := .mk [] [] false ⟨0, [c5neverBinding], [], false⟩ none
  (some 2) none none none

/-- An unguarded expanded candidate mixing a never and a non-never
alternative. -/
def c8mixParent : Candidate := .mk [] [c8nevSub, c8okSub] false emptyExtraData (some 5)
  none none none none

/-- A fully-matched never candidate reaching the guard-and-binding step. -/
def c8nevCand : Candidate := .mk [] [] false ⟨0, [], [], true⟩ none (some 0) none none none

/-- Witness for C8's amended theorem: the never alternative's block is
terminated unreachable by the filter, and the guard-and-binding step emits no
statement for a never candidate while terminating its block. -/
theorem never_subcandidates_excluded_witness :
    (match mergeTrivialSubcandidates 10 c8mixParent c5cfg with
     | some r => (r.2.block 1).term = some Term.unreachable
     | none => False) ∧
    (match bindAndGuardMatchedCandidate noGuardLowering trivialLocalFor [] false true
        c8nevCand [] ⟨[BlockData.empty]⟩ with
     | some r => (r.2.block 0).stmts = [] ∧ (r.2.block 0).term = some Term.unreachable
     | none => False) := by
  constructor
  · have hsome : (mergeTrivialSubcandidates 10 c8mixParent c5cfg).isSome = true := by decide
    cases hrun : mergeTrivialSubcandidates 10 c8mixParent c5cfg with
    | none => rw [hrun] at hsome; simp at hsome
    | some r =>
      obtain ⟨hnonever, hterm⟩ := never_subcandidates_excluded.1 10 c8mixParent c5cfg
        r.1 r.2 (by decide) (by simp [c8mixParent, Candidate.subcandidates]) (by decide)
        (by rw [← hrun])
      obtain ⟨lvs, hlvs, hleaf⟩ := hterm c8nevSub
        (by simp [c8mixParent, Candidate.subcandidates]) (by decide)
      have hx : (leavesWork 10 [c8nevSub]).map
          (fun l => l.map Candidate.preBindingBlock) = some [some 1] := by decide
      rw [hlvs] at hx
      simp only [Option.map_some', Option.some.injEq] at hx
      cases lvs with
      | nil => simp at hx
      | cons l rest =>
        simp only [List.map_cons, List.cons.injEq] at hx
        obtain ⟨pb, hpb, ht⟩ := hleaf l (List.mem_cons_self l rest)
        have hpb1 : pb = 1 := by
          rw [hx.1] at hpb
          exact (Option.some.inj hpb).symm
        subst hpb1
        exact ht
  · have hsome : (bindAndGuardMatchedCandidate noGuardLowering trivialLocalFor [] false true
        c8nevCand [] ⟨[BlockData.empty]⟩).isSome = true := by decide
    cases hrun : bindAndGuardMatchedCandidate noGuardLowering trivialLocalFor [] false true
        c8nevCand [] ⟨[BlockData.empty]⟩ with
    | none => rw [hrun] at hsome; simp at hsome
    | some r =>
      obtain ⟨hstmts, _⟩ := never_subcandidates_excluded.2 noGuardLowering trivialLocalFor
        [] false true c8nevCand [] ⟨[BlockData.empty]⟩ r.1 r.2 (by decide) (by rw [← hrun])
      constructor
      · rw [hstmts 0]
        rfl
      · have hx : (bindAndGuardMatchedCandidate noGuardLowering trivialLocalFor [] false true
            c8nevCand [] ⟨[BlockData.empty]⟩).map (fun r => (r.2.block 0).term) =
            some (some Term.unreachable) := by decide
        rw [hrun] at hx
        simpa using hx

/-- C10: `false_edge_start_block` discipline.  The slice head's field is
assigned by `match_candidates_inner` only when still `None`; or-pattern
expansion initializes the first subcandidate's field to the parent's current
value (and leaves the others unset); after trivial merging a parent whose
field is still unset takes the first subcandidate's value, and a parent whose
field is set keeps it — so after any sequence of only-when-`None` updates of
the first alternative's field (modelled by a `Some`-preserving function `g`),
the merged parent and its first alternative share the same false-edge start
block. -/
theorem false_edge_start_block_discipline :
    (∀ (startBlock : Nat) (first : Candidate) (rest : List Candidate),
      first.falseEdgeStartBlock.isSome = true →
      setFirstFalseEdge startBlock (first :: rest) = first :: rest) ∧
    (∀ (startBlock : Nat) (first : Candidate) (rest : List Candidate),
      first.falseEdgeStartBlock = none →
      setFirstFalseEdge startBlock (first :: rest) =
        first.setFalseEdgeStartBlock (some startBlock) :: rest) ∧
    (∀ c pair c', createOrSubcandidates c pair = some c' →
      ((c'.subcandidates.head?).map Candidate.falseEdgeStartBlock =
          some c.falseEdgeStartBlock ∧
        (∀ s ∈ c'.subcandidates.tail, s.falseEdgeStartBlock = none))) ∧
    (∀ fuel c cfg c' cfg', c.hasGuard = false → c.subcandidates ≠ [] →
      c.subcandidates.all
        (fun sub => sub.subcandidates.isEmpty && sub.extraData.isEmpty) = true →
      mergeTrivialSubcandidates fuel c cfg = some (c', cfg') →
      ((c.falseEdgeStartBlock.isNone = true →
          c'.falseEdgeStartBlock =
            (c.subcandidates.head?).bind Candidate.falseEdgeStartBlock) ∧
       (∀ x, c.falseEdgeStartBlock = some x → c'.falseEdgeStartBlock = some x))) ∧
    (∀ (g : Option Nat → Option Nat), (∀ v, g (some v) = some v) →
      ∀ fuel c pair c1 (subs2 : List Candidate) cfg c3 cfg',
      createOrSubcandidates c pair = some c1 →
      c1.hasGuard = false →
      subs2 ≠ [] →
      (subs2.head?).map Candidate.falseEdgeStartBlock =
        some (g c.falseEdgeStartBlock) →
      subs2.all (fun sub => sub.subcandidates.isEmpty && sub.extraData.isEmpty) = true →
      mergeTrivialSubcandidates fuel (c1.setSubcandidates subs2) cfg = some (c3, cfg') →
      c3.falseEdgeStartBlock = g c.falseEdgeStartBlock) := by
  refine ⟨?_, ?_, ?_, ?_, ?_⟩
  · intro startBlock first rest hsome
    simp only [setFirstFalseEdge]
    rw [if_neg (by simp [Option.isNone_iff_eq_none, ← Option.isSome_iff_ne_none, hsome])]
  · intro startBlock first rest hnone
    simp only [setFirstFalseEdge]
    rw [if_pos (by simp [hnone])]
  · intro c pair c' h
    obtain ⟨pats, _, _, _, _, _, hhead, htail, _⟩ := createOrSubcandidates_spec c pair c' h
    exact ⟨hhead, htail⟩
  · intro fuel c cfg c' cfg' hguard hsubs htriv h
    obtain ⟨_, _, _, _, _, hfeNone, hfeSome⟩ :=
      mergeTrivial_canMerge_spec fuel c cfg c' cfg' hguard hsubs htriv h
    exact ⟨hfeNone, hfeSome⟩
  · intro g hg fuel c pair c1 subs2 cfg c3 cfg' hexp hguard1 hne2 hhead2 htriv2 h
    obtain ⟨pats, _, _, _, _, _, _, _, hfe1, _, _⟩ :=
      createOrSubcandidates_spec c pair c1 hexp
    have hguard2 : (c1.setSubcandidates subs2).hasGuard = false := by
      simpa using hguard1
    have hsubs2 : (c1.setSubcandidates subs2).subcandidates ≠ [] := by simpa using hne2
    have htriv2' : (c1.setSubcandidates subs2).subcandidates.all
        (fun sub => sub.subcandidates.isEmpty && sub.extraData.isEmpty) = true := by
      simpa using htriv2
    obtain ⟨_, _, _, _, _, hfeNone, hfeSome⟩ :=
      mergeTrivial_canMerge_spec fuel _ cfg c3 cfg' hguard2 hsubs2 htriv2' h
    cases hcfe : c.falseEdgeStartBlock with
    | some x =>
      rw [hg x]
      refine hfeSome x ?_
      simp [hfe1, hcfe]
    | none =>
      have hx := hfeNone (by simp [hfe1, hcfe])
      rw [hx]
      simp only [Candidate.subcandidates_setSubcandidates]
      rw [hcfe] at hhead2
      cases hh : subs2.head? with
      | none => rw [hh] at hhead2; cases hhead2
      | some s =>
        rw [hh] at hhead2
        simp only [Option.map_some', Option.some.injEq] at hhead2
        simp [hhead2]

/-- A candidate whose false-edge start block is already set. -/
def c10fe : Candidate := .mk [] [] false emptyExtraData none none none (some 3) none

/-- A parent candidate with a set false-edge start block, to be expanded. -/
def c10parent : Candidate := .mk [] [] false emptyExtraData none none none (some 7) none

/-- A lowered trivial subcandidate carrying a false-edge start block. -/
def c10s1 : Candidate := .mk [] [] false emptyExtraData none (some 2) (some 3) (some 0) none

/-- A merged-parent scenario: false-edge start block unset on the parent, set
on the first subcandidate. -/
def c10dParent : Candidate := .mk [] [c10s1, c6sub2] false emptyExtraData (some 7)
  none none none none

/-- A guarded update of an optional block: assigns only when `None`. -/
def c10g : Option Nat → Option Nat := fun o =>
  match o with
  | none => some 11
  | some v => some v

/-- Lowered subcandidates after a guarded update of the first one's
false-edge start block by `c10g`. -/
def c10subs2 : List Candidate :=
  [.mk [] [] false emptyExtraData none (some 2) (some 3) (some 11) none, c6sub2]

/-- The composition scenario of C10: expansion of an or-pattern on a parent
with unset false-edge start block, a guarded update of the first alternative,
then trivial merging. -/
def c10eRun : Option (Candidate × Cfg) :=
  match createOrSubcandidates (plainCandidate []) orPairW with
  | some c1 => mergeTrivialSubcandidates 10 (c1.setSubcandidates c10subs2) c6cfg
  | none => none

/-- Witness for C10 on concrete instances of all five clauses. -/
theorem false_edge_start_block_discipline_witness :
    (setFirstFalseEdge 5 [c10fe]).map Candidate.falseEdgeStartBlock = [some 3] ∧
    (setFirstFalseEdge 5 [plainCandidate []]).map Candidate.falseEdgeStartBlock = [some 5] ∧
    (match createOrSubcandidates c10parent orPairW with
     | some c' => (c'.subcandidates.head?).map Candidate.falseEdgeStartBlock =
         some (some 7)
     | none => False) ∧
    ((mergeTrivialSubcandidates 10 c10dParent c6cfg).map
      fun r => r.1.falseEdgeStartBlock) = some (some 0) ∧
    (c10eRun.map fun r => r.1.falseEdgeStartBlock) = some (some 11) := by
  refine ⟨?_, ?_, ?_, ?_, ?_⟩
  · rw [false_edge_start_block_discipline.1 5 c10fe [] (by decide)]
    decide
  · rw [false_edge_start_block_discipline.2.1 5 (plainCandidate []) [] rfl]
    decide
  · have hsome : (createOrSubcandidates c10parent orPairW).isSome = true := by decide
    cases hrun : createOrSubcandidates c10parent orPairW with
    | none => rw [hrun] at hsome; simp at hsome
    | some c' =>
      have h3 := (false_edge_start_block_discipline.2.2.1 c10parent orPairW c' hrun).1
      show (c'.subcandidates.head?).map Candidate.falseEdgeStartBlock = some (some 7)
      rw [h3]
      decide
  · have hsome : (mergeTrivialSubcandidates 10 c10dParent c6cfg).isSome = true := by decide
    cases hrun : mergeTrivialSubcandidates 10 c10dParent c6cfg with
    | none => rw [hrun] at hsome; simp at hsome
    | some r =>
      have h4 := (false_edge_start_block_discipline.2.2.2.1 10 c10dParent c6cfg r.1 r.2
        (by decide) (by simp [c10dParent, Candidate.subcandidates]) (by decide)
        (by rw [← hrun])).1 (by decide)
      simp only [Option.map_some', Option.some.injEq]
      rw [h4]
      decide
  · unfold c10eRun
    have hsome : (createOrSubcandidates (plainCandidate []) orPairW).isSome = true := by decide
    cases hexp : createOrSubcandidates (plainCandidate []) orPairW with
    | none => rw [hexp] at hsome; simp at hsome
    | some c1 =>
      have hguard1 : c1.hasGuard = false := by
        have hx : (createOrSubcandidates (plainCandidate []) orPairW).map
            Candidate.hasGuard = some false := by decide
        rw [hexp] at hx
        simpa using hx
      have hmsome : (mergeTrivialSubcandidates 10 (c1.setSubcandidates c10subs2)
          c6cfg).isSome = true := by
        have hx : (match createOrSubcandidates (plainCandidate []) orPairW with
          | some c1 => mergeTrivialSubcandidates 10 (c1.setSubcandidates c10subs2) c6cfg
          | none => none).isSome = true := by decide
        rw [hexp] at hx
        exact hx
      cases hrun : mergeTrivialSubcandidates 10 (c1.setSubcandidates c10subs2) c6cfg with
      | none => rw [hrun] at hmsome; simp at hmsome
      | some r =>
        have h5 := false_edge_start_block_discipline.2.2.2.2 c10g (fun v => rfl) 10
          (plainCandidate []) orPairW c1 c10subs2 c6cfg r.1 r.2 hexp hguard1
          (by simp [c10subs2]) (by decide) (by decide) (by rw [← hrun])
        show (mergeTrivialSubcandidates 10 (c1.setSubcandidates c10subs2) c6cfg).map
          (fun r => r.1.falseEdgeStartBlock) = some (some 11)
        rw [hrun]
        simp only [Option.map_some', Option.some.injEq]
        rw [h5]
        decide

/-- The unsorted remainder of the scanning loop is a suffix of its input. -/
theorem sortCandidatesLoop_rest_le (matchPlace : Place) (t : Test) :
    ∀ (cs : List Candidate) (acc : List (Bool × Candidate)),
      ((sortCandidatesLoop matchPlace t cs acc).2).length ≤ cs.length := by
  intro cs
  induction cs with
  | nil => intro acc; simp [sortCandidatesLoop]
  | cons c rest ih =>
    intro acc
    simp only [sortCandidatesLoop]
    cases hs : sortCandidate matchPlace t c with
    | none => simp
    | some r => exact Nat.le_trans (ih _) (Nat.le_succ _)

/-- C9: when the picked test comes from the first candidate's first match
pair, `sort_candidates` always sorts at least that candidate — the unsorted
remainder is strictly smaller than the input; and when the head candidate
cannot be sorted at all, `sort_candidates` fails loudly (the embedded
rendering of its `assert!`) rather than returning an unchanged slice. -/
theorem sort_candidates_progress :
    (∀ (candidates : List Candidate) (matchPlace : Place) (t : Test),
      pickTest candidates = some (matchPlace, t) →
      ∃ rest sorted, sortCandidates matchPlace t candidates = some (rest, sorted) ∧
        rest.length < candidates.length) ∧
    (∀ (matchPlace : Place) (t : Test) (first : Candidate) (rest : List Candidate),
      sortCandidate matchPlace t first = none →
      sortCandidates matchPlace t (first :: rest) = none) := by
  constructor
  · intro candidates matchPlace t hpick
    cases candidates with
    | nil => cases hpick
    | cons first cs =>
      simp only [pickTest] at hpick
      cases hmp : first.matchPairs with
      | nil => simp only [hmp] at hpick; cases hpick
      | cons pair ps =>
        simp only [hmp] at hpick
        cases htest : testOf pair with
        | none => simp only [htest] at hpick; cases hpick
        | some t0 =>
          cases hplace : pair.place with
          | none => simp only [htest, hplace] at hpick; cases hpick
          | some p =>
            simp only [htest, hplace] at hpick
            simp only [Option.some.injEq, Prod.mk.injEq] at hpick
            obtain ⟨hp, ht⟩ := hpick
            subst hp ht
            unfold testOf at htest
            cases htc : pair.testCase with
            | orPats pats => rw [htc] at htest; cases htest
            | constant b =>
              obtain ⟨k⟩ := t0
              cases k
              have hsort : sortCandidate p ⟨.ifBool⟩ first =
                  some (b, first.setMatchPairs (orPatsToEnd (ps ++ pair.subpairs))) := by
                simp only [sortCandidate, hmp, findPlacePair, hplace]
                simp [htc]
              unfold sortCandidates
              simp only [sortCandidatesLoop, hsort, List.nil_append]
              have hle := sortCandidatesLoop_rest_le p ⟨.ifBool⟩ cs
                [(b, first.setMatchPairs (orPatsToEnd (ps ++ pair.subpairs)))]
              have hlt : ((sortCandidatesLoop p ⟨.ifBool⟩ cs
                  [(b, first.setMatchPairs (orPatsToEnd (ps ++ pair.subpairs)))]).2).length <
                  (first :: cs).length := by
                simp only [List.length_cons]
                omega
              rw [if_pos (show (first :: cs).length >
                ((sortCandidatesLoop p ⟨.ifBool⟩ cs
                  [(b, first.setMatchPairs (orPatsToEnd (ps ++ pair.subpairs)))]).2).length from hlt)]
              exact ⟨_, _, rfl, hlt⟩
  · intro matchPlace t first rest hfail
    unfold sortCandidates
    simp only [sortCandidatesLoop, hfail]
    rw [if_neg (by simp)]

/-- Witness for C9: on the priority-semantics candidates the picked test
sorts the first candidate (remainder 2 of 3), and an unrelated place sorts
nothing and fails. -/
theorem sort_candidates_progress_witness :
    (match sortCandidates [0] ⟨.ifBool⟩ priorityArms with
     | some r => r.1.length < priorityArms.length
     | none => False) ∧
    (sortCandidates [5] ⟨.ifBool⟩ priorityArms).isNone = true := by
  constructor
  · obtain ⟨rest, sorted, hrun, hlt⟩ := sort_candidates_progress.1 priorityArms [0]
      ⟨.ifBool⟩ (by decide)
    rw [hrun]
    exact hlt
  · have h := sort_candidates_progress.2 [5] ⟨.ifBool⟩
      (plainCandidate [pairConst [0] true, pairConst [1] true])
      [plainCandidate [pairConst [1] false],
       plainCandidate [pairConst [0] false, pairConst [1] true]] rfl
    rw [show sortCandidates [5] (⟨.ifBool⟩ : Test) priorityArms = none from h]
    rfl

/-- C7: when match pairs remained on an expanded or-pattern candidate,
`finalize_or_candidate` (after trivial merging) attaches them to every leaf
subcandidate via the leaf traversal and lowers them from that leaf's
pre-binding block, with `last_otherwise` taken from the last leaf; and each
such per-leaf lowering routes its otherwise path to the leaf's own otherwise
block when the candidate has a guard, and to the last subcandidate's
otherwise block when it has none. -/
theorem finalize_or_remaining_pairs_routing :
    (∀ (recur : Nat → List Candidate → Cfg → Option (Nat × List Candidate × Cfg))
        (fuel : Nat) (c : Candidate) (cfg : Cfg) (res : Candidate × Cfg),
      c.subcandidates ≠ [] →
      finalizeOrCandidate recur fuel c cfg = some res →
      ∃ cm cfgm, mergeTrivialSubcandidates fuel c cfg = some (cm, cfgm) ∧
        ((cm.matchPairs = [] ∧ res = (cm, cfgm)) ∨
         (cm.matchPairs ≠ [] ∧ ∃ lvs out,
           leavesWork fuel [cm] = some lvs ∧
           mapLeavesList fuel (finalizeLeafStep recur
               ((lvs.getLast?).bind Candidate.otherwiseBlock) cm.matchPairs)
             [cm.setMatchPairs []] cfgm = some out ∧
           (∃ chead ctail, out.1 = chead :: ctail ∧ res = (chead, out.2))))) ∧
    (∀ (recur : Nat → List Candidate → Cfg → Option (Nat × List Candidate × Cfg))
        (lastOtherwise : Option Nat) (remaining : List MatchPair)
        (leaf : Candidate) (cfg : Cfg) (leaf' : Candidate) (cfg2 : Cfg),
      finalizeLeafStep recur lastOtherwise remaining leaf cfg = some (leaf', cfg2) →
      leaf.matchPairs = [] ∧
      ∃ orStart ow ls cfg1,
        leaf.preBindingBlock = some orStart ∧
        recur orStart [leaf.setMatchPairs remaining] cfg = some (ow, ls, cfg1) ∧
        leaf' = ls.headD (leaf.setMatchPairs remaining) ∧
        ∃ tgt, cfg2 = cfg1.goto ow tgt ∧
          (cfg2.block ow).term = some (Term.goto tgt) ∧
          (leaf'.hasGuard = true → leaf'.otherwiseBlock = some tgt) ∧
          (leaf'.hasGuard = false → lastOtherwise = some tgt)) := by
  constructor
  · intro recur fuel c cfg res hsubs h
    unfold finalizeOrCandidate at h
    rw [if_neg (by simpa using hsubs)] at h
    cases hm : mergeTrivialSubcandidates fuel c cfg with
    | none => simp only [hm] at h; cases h
    | some r =>
      obtain ⟨cm, cfgm⟩ := r
      simp only [hm] at h
      refine ⟨cm, cfgm, rfl, ?_⟩
      by_cases hmp : cm.matchPairs.isEmpty = true
      · rw [if_pos hmp] at h
        simp only [Option.some.injEq] at h
        exact Or.inl ⟨List.isEmpty_iff.mp hmp, h.symm⟩
      · rw [if_neg hmp] at h
        refine Or.inr ⟨by simpa using hmp, ?_⟩
        cases hlv : leavesWork fuel [cm] with
        | none => simp only [hlv] at h; cases h
        | some lvs =>
          simp only [hlv] at h
          refine ⟨lvs, ?_⟩
          cases hmap : mapLeavesList fuel (finalizeLeafStep recur
              ((lvs.getLast?).bind Candidate.otherwiseBlock) cm.matchPairs)
              [cm.setMatchPairs []] cfgm with
          | none => simp only [hmap] at h; cases h
          | some out =>
            obtain ⟨outl, outcfg⟩ := out
            simp only [hmap] at h
            cases outl with
            | nil => cases h
            | cons chead ctail =>
              simp only [Option.some.injEq] at h
              exact ⟨(chead :: ctail, outcfg), rfl, rfl, chead, ctail, rfl, h.symm⟩
  · intro recur lastOtherwise remaining leaf cfg leaf' cfg2 h
    unfold finalizeLeafStep at h
    by_cases hmp : leaf.matchPairs.isEmpty = true
    · rw [if_pos hmp] at h
      refine ⟨List.isEmpty_iff.mp hmp, ?_⟩
      cases hpb : (leaf.setMatchPairs remaining).preBindingBlock with
      | none => simp only [hpb] at h; cases h
      | some orStart =>
        simp only [hpb] at h
        cases hrec : recur orStart [leaf.setMatchPairs remaining] cfg with
        | none => simp only [hrec] at h; cases h
        | some r =>
          obtain ⟨ow, ls, cfg1⟩ := r
          simp only [hrec] at h
          refine ⟨orStart, ow, ls, cfg1, by simpa using hpb, hrec, ?_⟩
          cases hguard : (ls.headD (leaf.setMatchPairs remaining)).hasGuard with
          | true =>
            rw [hguard] at h
            simp only [if_true] at h
            cases how : (ls.headD (leaf.setMatchPairs remaining)).otherwiseBlock with
            | none => simp only [how] at h; cases h
            | some tgt =>
              simp only [how] at h
              simp only [Option.some.injEq, Prod.mk.injEq] at h
              obtain ⟨hleaf', hcfg2⟩ := h
              subst hcfg2
              refine ⟨hleaf'.symm, tgt, rfl, ?_, ?_, ?_⟩
              · rw [Cfg.goto, Cfg.block_terminate_self]
              · intro _
                rw [← hleaf']
                exact how
              · intro hg
                rw [← hleaf'] at hg
                rw [hguard] at hg
                cases hg
          | false =>
            rw [hguard] at h
            simp only [Bool.false_eq_true, if_false] at h
            cases hlo : lastOtherwise with
            | none => simp only [hlo] at h; cases h
            | some tgt =>
              simp only [hlo] at h
              simp only [Option.some.injEq, Prod.mk.injEq] at h
              obtain ⟨hleaf', hcfg2⟩ := h
              subst hcfg2
              refine ⟨hleaf'.symm, tgt, rfl, ?_, ?_, ?_⟩
              · rw [Cfg.goto, Cfg.block_terminate_self]
              · intro hg
                rw [← hleaf'] at hg
                rw [hguard] at hg
                cases hg
              · intro _
                rfl
    · rw [if_neg hmp] at h
      cases h

/-- An expanded or-pattern candidate with two trivial subcandidates and a
leftover match pair to test after the alternatives. -/
def c7c : Candidate := .mk [orPairW] [c6sub1, c6sub2] false emptyExtraData
  (some 7) none none none none

/-- An unguarded leaf subcandidate about to receive the leftover pairs. -/
def c7leaf : Candidate := .mk [] [] false emptyExtraData none (some 0) (some 4) none none

/-- Witness for C7: the traversal applies on a concrete finalized or-pattern
candidate, and a concrete per-leaf step routes its otherwise path to the
supplied `last_otherwise` block (no guard). -/
theorem finalize_or_remaining_pairs_routing_witness :
    ((finalizeOrCandidate (matchCandidates 15) 15 c7c c6cfg).isSome = true ∧
     (mergeTrivialSubcandidates 15 c7c c6cfg).isSome = true) ∧
    (match finalizeLeafStep (matchCandidates 15) (some 9) [orPairW] c7leaf
        ⟨[BlockData.empty]⟩ with
     | some r => (r.2.block 1).term = some (Term.goto 9)
     | none => False) := by
  constructor
  · have hsome : (finalizeOrCandidate (matchCandidates 15) 15 c7c c6cfg).isSome = true := by
      decide
    refine ⟨hsome, ?_⟩
    cases hrun : finalizeOrCandidate (matchCandidates 15) 15 c7c c6cfg with
    | none => rw [hrun] at hsome; simp at hsome
    | some res =>
      obtain ⟨cm, cfgm, hmerge, _⟩ := finalize_or_remaining_pairs_routing.1
        (matchCandidates 15) 15 c7c c6cfg res (by simp [c7c, Candidate.subcandidates]) hrun
      rw [hmerge]
      rfl
  · have hsome : (finalizeLeafStep (matchCandidates 15) (some 9) [orPairW] c7leaf
        ⟨[BlockData.empty]⟩).isSome = true := by decide
    cases hrun : finalizeLeafStep (matchCandidates 15) (some 9) [orPairW] c7leaf
        ⟨[BlockData.empty]⟩ with
    | none => rw [hrun] at hsome; simp at hsome
    | some r =>
      obtain ⟨hmp, orStart, ow, ls, cfg1, hpb, hrec, hleaf', tgt, hcfg2, hterm, hgt, hgf⟩ :=
        finalize_or_remaining_pairs_routing.2 (matchCandidates 15) (some 9)
          [orPairW] c7leaf ⟨[BlockData.empty]⟩ r.1 r.2 (by rw [← hrun])
      have hos : orStart = 0 := by
        have hx : some (0 : Nat) = some orStart := by rw [← hpb]; decide
        exact (Option.some.inj hx).symm
      subst hos
      have how : ow = 1 := by
        have hx : (matchCandidates 15 0 [c7leaf.setMatchPairs [orPairW]]
            ⟨[BlockData.empty]⟩).map (fun r => r.1) = some 1 := by decide
        rw [hrec] at hx
        simpa using hx
      have hguard : r.1.hasGuard = false := by
        have hx : (matchCandidates 15 0 [c7leaf.setMatchPairs [orPairW]]
            ⟨[BlockData.empty]⟩).map
            (fun r => (r.2.1.headD (c7leaf.setMatchPairs [orPairW])).hasGuard) =
            some false := by decide
        rw [hrec] at hx
        simp only [Option.map_some', Option.some.injEq] at hx
        rw [hleaf']
        exact hx
      have htgt : tgt = 9 := by
        have hx := hgf hguard
        exact (Option.some.inj hx).symm
      subst how htgt
      exact hterm

/-! ## Move-after-guard -/

/-- A statement that moves (or copies) out of a place:
`consume_by_copy_or_move` assignments. -/
def Stmt.isMove : Stmt → Bool
  | .assign _ (.useMoveCopy _) => true
  | _ => false

/-- A `ForGuardBinding` fake read (of a guard-local reference). -/
def Stmt.isGuardBindingRead : Stmt → Bool
  | .fakeRead .forGuardBinding _ => true
  | _ => false

/-- Number of move/copy-out statements in block `b`. -/
def Cfg.movesIn (c : Cfg) (b : Nat) : Nat :=
  ((c.block b).stmts.filter Stmt.isMove).length

theorem Cfg.movesIn_terminate (c : Cfg) (blk : Nat) (t : Term) (b : Nat) :
    (c.terminate blk t).movesIn b = c.movesIn b := by
  simp [Cfg.movesIn, Cfg.stmts_terminate]

theorem Cfg.movesIn_startNewBlock (c : Cfg) (b : Nat) :
    ((c.startNewBlock).2).movesIn b = c.movesIn b := by
  simp [Cfg.movesIn, Cfg.block_startNewBlock]

theorem Cfg.movesIn_pushAll_nomoves (c : Cfg) (blk : Nat) (l : List Stmt)
    (hl : ∀ s ∈ l, s.isMove = false) (b : Nat) :
    (c.pushAll blk l).movesIn b = c.movesIn b := by
  by_cases hb : b = blk
  · subst hb
    simp only [Cfg.movesIn, Cfg.block_pushAll_self, List.filter_append, List.length_append]
    have hnil : l.filter Stmt.isMove = [] :=
      List.filter_eq_nil_iff.mpr (by intro s hs; simp [hl s hs])
    rw [hnil]
    simp
  · simp [Cfg.movesIn, Cfg.block_pushAll_other c blk l b hb]

theorem Cfg.movesIn_pushAll_other (c : Cfg) (blk : Nat) (l : List Stmt) (b : Nat)
    (hb : b ≠ blk) : (c.pushAll blk l).movesIn b = c.movesIn b := by
  simp [Cfg.movesIn, Cfg.block_pushAll_other c blk l b hb]

theorem guardBindStmts_no_move (localFor : Nat → Bool → Nat) (bs : List Binding) :
    ∀ s ∈ guardBindStmts localFor bs, s.isMove = false := by
  induction bs with
  | nil => intro s hs; cases hs
  | cons b rest ih =>
    intro s hs
    simp only [guardBindStmts] at hs
    rcases List.mem_append.mp hs with hl | hl
    · split at hl <;> fin_cases hl <;> rfl
    · exact ih s hl

theorem ascriptionStmts_no_move (ascriptions : List Ascription) :
    ∀ s ∈ ascriptionStmts ascriptions, s.isMove = false := by
  intro s hs
  obtain ⟨a, _, ha⟩ := List.mem_map.mp hs
  rw [← ha]
  rfl

theorem fakeBorrowStmts_no_move (fakeBorrows : List (Place × Nat)) :
    ∀ s ∈ fakeBorrowStmts fakeBorrows, s.isMove = false := by
  intro s hs
  obtain ⟨a, _, ha⟩ := List.mem_map.mp hs
  rw [← ha]
  rfl

theorem matchGuardReadStmts_no_move (fakeBorrows : List (Place × Nat)) :
    ∀ s ∈ matchGuardReadStmts fakeBorrows, s.isMove = false := by
  intro s hs
  obtain ⟨a, _, ha⟩ := List.mem_map.mp hs
  rw [← ha]
  rfl

theorem guardBindingReadStmts_no_move (localFor : Nat → Bool → Nat) (bs : List Binding) :
    ∀ s ∈ guardBindingReadStmts localFor bs, s.isMove = false := by
  intro s hs
  obtain ⟨a, _, ha⟩ := List.mem_map.mp hs
  rw [← ha]
  rfl

theorem armBindStmts_no_guard_read (localFor : Nat → Bool → Nat) (emit : Bool)
    (bs : List Binding) :
    ∀ s ∈ armBindStmts localFor emit bs, s.isGuardBindingRead = false := by
  induction bs with
  | nil => intro s hs; cases hs
  | cons b rest ih =>
    intro s hs
    simp only [armBindStmts] at hs
    rcases List.mem_append.mp hs with hl | hl
    · rcases List.mem_append.mp hl with hl2 | hl2
      · split at hl2
        all_goals fin_cases hl2
        all_goals rfl
      · fin_cases hl2
        rfl
    · exact ih s hl

theorem armBindStmts_mem_move (localFor : Nat → Bool → Nat) (emit : Bool)
    (bs : List Binding) (bnd : Binding) (hmem : bnd ∈ bs) (hbv : bnd.byRef = false) :
    Stmt.assign (localFor bnd.varId false) (.useMoveCopy bnd.source) ∈
      armBindStmts localFor emit bs := by
  induction bs with
  | nil => cases hmem
  | cons b rest ih =>
    simp only [armBindStmts]
    rcases List.mem_cons.mp hmem with hl | hl
    · subst hl
      rw [hbv]
      apply List.mem_append.mpr
      refine Or.inl (List.mem_append.mpr (Or.inr ?_))
      simp
    · exact List.mem_append.mpr (Or.inr (ih hl))

/-- All moves after all guard-binding reads, for a statement list split into a
move-free prefix and a read-free suffix. -/
theorem moves_after_reads (A B : List Stmt)
    (hA : ∀ s ∈ A, s.isMove = false) (hB : ∀ s ∈ B, s.isGuardBindingRead = false) :
    ∀ (i j : Nat) si sj, (A ++ B)[i]? = some si → si.isMove = true →
      (A ++ B)[j]? = some sj → sj.isGuardBindingRead = true → j < i := by
  intro i j si sj hi hmove hj hread
  have hiA : A.length ≤ i := by
    by_contra hlt
    push_neg at hlt
    rw [List.getElem?_append, if_pos hlt] at hi
    have := hA si (List.getElem?_mem hi)
    rw [this] at hmove
    cases hmove
  have hjA : j < A.length := by
    by_contra hge
    push_neg at hge
    rw [List.getElem?_append_right hge] at hj
    have := hB sj (List.getElem?_mem hj)
    rw [this] at hread
    cases hread
  omega

theorem Cfg.movesIn_goto (c : Cfg) (b t : Nat) (b' : Nat) :
    (c.goto b t).movesIn b' = c.movesIn b' := by
  simp [Cfg.movesIn, Cfg.stmts_goto]

theorem Cfg.movesIn_falseEdges (c : Cfg) (s r : Nat) (i : Option Nat) (b : Nat) :
    (falseEdges c s r i).movesIn b = c.movesIn b := by
  cases i with
  | none => simp [falseEdges, Cfg.movesIn_goto]
  | some t => simp [falseEdges, Cfg.movesIn_terminate]

theorem Cfg.stmts_falseEdges (c : Cfg) (s r : Nat) (i : Option Nat) (b : Nat) :
    ((falseEdges c s r i).block b).stmts = (c.block b).stmts := by
  cases i with
  | none => simp [falseEdges, Cfg.stmts_goto]
  | some t => simp [falseEdges, Cfg.stmts_terminate]

theorem Cfg.movesIn_zero_forall (c : Cfg) (b : Nat) (h : c.movesIn b = 0) :
    ∀ s ∈ (c.block b).stmts, s.isMove = false := by
  intro s hs
  by_contra hmv
  rw [Bool.not_eq_false] at hmv
  have hmem : s ∈ (c.block b).stmts.filter Stmt.isMove := List.mem_filter.mpr ⟨hs, hmv⟩
  have : (c.block b).stmts.filter Stmt.isMove = [] := List.length_eq_zero.mp h
  rw [this] at hmem
  cases hmem

/-- C1: for a guarded candidate, `bind_and_guard_matched_candidate` emits the
move/copy materializations of the by-value arm-locals only in the guard-success
block (every other block stays free of move-outs, given a move-free input CFG
and a guard lowering that pushes no move), every by-value binding is
materialized there, and within that block every move comes strictly after
every `ForGuardBinding` fake read of the guard-local references. -/
theorem move_after_guard
    (lowerGuard : Nat → Cfg → Cfg × Nat × Nat)
    (localFor : Nat → Bool → Nat) (fakeBorrows : List (Place × Nat))
    (emitStorageLive : Bool) (candidate : Candidate)
    (parentData : List PatternExtraData) (cfg : Cfg)
    (postGuardBlock : Nat) (cfg' : Cfg)
    (hnev : candidate.extraData.isNever = false)
    (hclean : ∀ b, cfg.movesIn b = 0)
    (hlg : ∀ blk c b, ((lowerGuard blk c).1).movesIn b = c.movesIn b)
    (h : bindAndGuardMatchedCandidate lowerGuard localFor fakeBorrows true
      emitStorageLive candidate parentData cfg = some (postGuardBlock, cfg')) :
    (∀ b, b ≠ postGuardBlock → cfg'.movesIn b = 0) ∧
    (∀ bnd ∈ ((parentData.foldr (fun d acc => d.bindings ++ acc) ([] : List Binding)) ++
        candidate.extraData.bindings).filter (fun b : Binding => !b.byRef),
      Stmt.assign (localFor bnd.varId false) (.useMoveCopy bnd.source) ∈
        (cfg'.block postGuardBlock).stmts) ∧
    (∀ (i j : Nat) si sj, ((cfg'.block postGuardBlock).stmts)[i]? = some si →
      si.isMove = true → ((cfg'.block postGuardBlock).stmts)[j]? = some sj →
      sj.isGuardBindingRead = true → j < i) := by
  unfold bindAndGuardMatchedCandidate at h
  split at h
  · cases h
  · split at h
    · cases h
    · rename_i hmp preBinding hpre
      rw [hnev] at h
      simp only [Bool.false_eq_true, if_false, eq_self_iff_true, if_true] at h
      cases hnext : candidate.nextCandidateStartBlock with
      | none =>
        rw [hnext] at h
        simp only [Option.isSome_none, Bool.false_eq_true, if_false] at h
        cases how : candidate.otherwiseBlock with
        | some ob =>
          rw [how] at h
          simp only [] at h
          rw [Option.some_inj, Prod.mk.injEq] at h
          obtain ⟨hpg, hcfg⟩ := h
          subst hpg
          subst hcfg
          refine ⟨?_, ?_, ?_⟩
          · intro b hb
            simp only [bindMatchedCandidateForArmBody]
            rw [Cfg.movesIn_pushAll_other _ _ _ _ hb]
            rw [Cfg.movesIn_pushAll_nomoves _ _ _ (guardBindingReadStmts_no_move _ _)]
            rw [Cfg.movesIn_falseEdges]
            rw [Cfg.movesIn_pushAll_nomoves _ _ _ (matchGuardReadStmts_no_move _)]
            rw [hlg]
            rw [Cfg.movesIn_pushAll_nomoves _ _ _ (fakeBorrowStmts_no_move _)]
            simp only [bindMatchedCandidateForGuard, ascribeTypes]
            rw [Cfg.movesIn_pushAll_nomoves _ _ _ (guardBindStmts_no_move _ _)]
            rw [Cfg.movesIn_pushAll_nomoves _ _ _ (ascriptionStmts_no_move _)]
            exact hclean b
          · intro bnd hbnd
            simp only [bindMatchedCandidateForArmBody, Cfg.block_pushAll_self]
            refine List.mem_append.mpr (Or.inr ?_)
            exact armBindStmts_mem_move localFor emitStorageLive _ bnd hbnd
              (by have := List.of_mem_filter hbnd; simpa using this)
          · simp only [bindMatchedCandidateForArmBody, bindMatchedCandidateForGuard,
              ascribeTypes, Cfg.block_pushAll_self, Cfg.stmts_falseEdges]
            refine moves_after_reads _ _ ?_ ?_
            · intro s hs
              rcases List.mem_append.mp hs with hs1 | hs2
              · rcases List.mem_append.mp hs1 with hs3 | hs4
                · refine Cfg.movesIn_zero_forall _ _ ?_ s hs3
                  rw [hlg]
                  rw [Cfg.movesIn_pushAll_nomoves _ _ _ (fakeBorrowStmts_no_move _)]
                  rw [Cfg.movesIn_pushAll_nomoves _ _ _ (guardBindStmts_no_move _ _)]
                  rw [Cfg.movesIn_pushAll_nomoves _ _ _ (ascriptionStmts_no_move _)]
                  exact hclean _
                · exact matchGuardReadStmts_no_move _ s hs4
              · exact guardBindingReadStmts_no_move _ _ s hs2
            · exact armBindStmts_no_guard_read _ _ _
        | none =>
          rw [how] at h
          simp only [] at h
          rw [Option.some_inj, Prod.mk.injEq] at h
          obtain ⟨hpg, hcfg⟩ := h
          subst hpg
          subst hcfg
          refine ⟨?_, ?_, ?_⟩
          · intro b hb
            simp only [bindMatchedCandidateForArmBody]
            rw [Cfg.movesIn_pushAll_other _ _ _ _ hb]
            rw [Cfg.movesIn_pushAll_nomoves _ _ _ (guardBindingReadStmts_no_move _ _)]
            rw [Cfg.movesIn_falseEdges]
            rw [Cfg.movesIn_terminate]
            rw [Cfg.movesIn_startNewBlock]
            rw [Cfg.movesIn_pushAll_nomoves _ _ _ (matchGuardReadStmts_no_move _)]
            rw [hlg]
            rw [Cfg.movesIn_pushAll_nomoves _ _ _ (fakeBorrowStmts_no_move _)]
            simp only [bindMatchedCandidateForGuard, ascribeTypes]
            rw [Cfg.movesIn_pushAll_nomoves _ _ _ (guardBindStmts_no_move _ _)]
            rw [Cfg.movesIn_pushAll_nomoves _ _ _ (ascriptionStmts_no_move _)]
            exact hclean b
          · intro bnd hbnd
            simp only [bindMatchedCandidateForArmBody, Cfg.block_pushAll_self]
            refine List.mem_append.mpr (Or.inr ?_)
            exact armBindStmts_mem_move localFor emitStorageLive _ bnd hbnd
              (by have := List.of_mem_filter hbnd; simpa using this)
          · simp only [bindMatchedCandidateForArmBody, bindMatchedCandidateForGuard,
              ascribeTypes, Cfg.block_pushAll_self, Cfg.stmts_falseEdges,
              Cfg.stmts_terminate, Cfg.block_startNewBlock]
            refine moves_after_reads _ _ ?_ ?_
            · intro s hs
              rcases List.mem_append.mp hs with hs1 | hs2
              · rcases List.mem_append.mp hs1 with hs3 | hs4
                · refine Cfg.movesIn_zero_forall _ _ ?_ s hs3
                  rw [hlg]
                  rw [Cfg.movesIn_pushAll_nomoves _ _ _ (fakeBorrowStmts_no_move _)]
                  rw [Cfg.movesIn_pushAll_nomoves _ _ _ (guardBindStmts_no_move _ _)]
                  rw [Cfg.movesIn_pushAll_nomoves _ _ _ (ascriptionStmts_no_move _)]
                  exact hclean _
                · exact matchGuardReadStmts_no_move _ s hs4
              · exact guardBindingReadStmts_no_move _ _ s hs2
            · exact armBindStmts_no_guard_read _ _ _
      | some nxt =>
        rw [hnext] at h
        simp only [Option.isSome_some, eq_self_iff_true, if_true] at h
        cases how : candidate.otherwiseBlock with
        | some ob =>
          rw [how] at h
          simp only [] at h
          rw [Option.some_inj, Prod.mk.injEq] at h
          obtain ⟨hpg, hcfg⟩ := h
          subst hpg
          subst hcfg
          refine ⟨?_, ?_, ?_⟩
          · intro b hb
            simp only [bindMatchedCandidateForArmBody]
            rw [Cfg.movesIn_pushAll_other _ _ _ _ hb]
            rw [Cfg.movesIn_pushAll_nomoves _ _ _ (guardBindingReadStmts_no_move _ _)]
            rw [Cfg.movesIn_falseEdges]
            rw [Cfg.movesIn_pushAll_nomoves _ _ _ (matchGuardReadStmts_no_move _)]
            rw [hlg]
            rw [Cfg.movesIn_pushAll_nomoves _ _ _ (fakeBorrowStmts_no_move _)]
            simp only [bindMatchedCandidateForGuard, ascribeTypes]
            rw [Cfg.movesIn_pushAll_nomoves _ _ _ (guardBindStmts_no_move _ _)]
            rw [Cfg.movesIn_pushAll_nomoves _ _ _ (ascriptionStmts_no_move _)]
            rw [Cfg.movesIn_falseEdges]
            rw [Cfg.movesIn_startNewBlock]
            exact hclean b
          · intro bnd hbnd
            simp only [bindMatchedCandidateForArmBody, Cfg.block_pushAll_self]
            refine List.mem_append.mpr (Or.inr ?_)
            exact armBindStmts_mem_move localFor emitStorageLive _ bnd hbnd
              (by have := List.of_mem_filter hbnd; simpa using this)
          · simp only [bindMatchedCandidateForArmBody, bindMatchedCandidateForGuard,
              ascribeTypes, Cfg.block_pushAll_self, Cfg.stmts_falseEdges,
              Cfg.block_startNewBlock]
            refine moves_after_reads _ _ ?_ ?_
            · intro s hs
              rcases List.mem_append.mp hs with hs1 | hs2
              · rcases List.mem_append.mp hs1 with hs3 | hs4
                · refine Cfg.movesIn_zero_forall _ _ ?_ s hs3
                  rw [hlg]
                  rw [Cfg.movesIn_pushAll_nomoves _ _ _ (fakeBorrowStmts_no_move _)]
                  rw [Cfg.movesIn_pushAll_nomoves _ _ _ (guardBindStmts_no_move _ _)]
                  rw [Cfg.movesIn_pushAll_nomoves _ _ _ (ascriptionStmts_no_move _)]
                  rw [Cfg.movesIn_falseEdges]
                  rw [Cfg.movesIn_startNewBlock]
                  exact hclean _
                · exact matchGuardReadStmts_no_move _ s hs4
              · exact guardBindingReadStmts_no_move _ _ s hs2
            · exact armBindStmts_no_guard_read _ _ _
        | none =>
          rw [how] at h
          simp only [] at h
          rw [Option.some_inj, Prod.mk.injEq] at h
          obtain ⟨hpg, hcfg⟩ := h
          subst hpg
          subst hcfg
          refine ⟨?_, ?_, ?_⟩
          · intro b hb
            simp only [bindMatchedCandidateForArmBody]
            rw [Cfg.movesIn_pushAll_other _ _ _ _ hb]
            rw [Cfg.movesIn_pushAll_nomoves _ _ _ (guardBindingReadStmts_no_move _ _)]
            rw [Cfg.movesIn_falseEdges]
            rw [Cfg.movesIn_terminate]
            rw [Cfg.movesIn_startNewBlock]
            rw [Cfg.movesIn_pushAll_nomoves _ _ _ (matchGuardReadStmts_no_move _)]
            rw [hlg]
            rw [Cfg.movesIn_pushAll_nomoves _ _ _ (fakeBorrowStmts_no_move _)]
            simp only [bindMatchedCandidateForGuard, ascribeTypes]
            rw [Cfg.movesIn_pushAll_nomoves _ _ _ (guardBindStmts_no_move _ _)]
            rw [Cfg.movesIn_pushAll_nomoves _ _ _ (ascriptionStmts_no_move _)]
            rw [Cfg.movesIn_falseEdges]
            rw [Cfg.movesIn_startNewBlock]
            exact hclean b
          · intro bnd hbnd
            simp only [bindMatchedCandidateForArmBody, Cfg.block_pushAll_self]
            refine List.mem_append.mpr (Or.inr ?_)
            exact armBindStmts_mem_move localFor emitStorageLive _ bnd hbnd
              (by have := List.of_mem_filter hbnd; simpa using this)
          · simp only [bindMatchedCandidateForArmBody, bindMatchedCandidateForGuard,
              ascribeTypes, Cfg.block_pushAll_self, Cfg.stmts_falseEdges,
              Cfg.stmts_terminate, Cfg.block_startNewBlock]
            refine moves_after_reads _ _ ?_ ?_
            · intro s hs
              rcases List.mem_append.mp hs with hs1 | hs2
              · rcases List.mem_append.mp hs1 with hs3 | hs4
                · refine Cfg.movesIn_zero_forall _ _ ?_ s hs3
                  rw [hlg]
                  rw [Cfg.movesIn_pushAll_nomoves _ _ _ (fakeBorrowStmts_no_move _)]
                  rw [Cfg.movesIn_pushAll_nomoves _ _ _ (guardBindStmts_no_move _ _)]
                  rw [Cfg.movesIn_pushAll_nomoves _ _ _ (ascriptionStmts_no_move _)]
                  rw [Cfg.movesIn_falseEdges]
                  rw [Cfg.movesIn_startNewBlock]
                  exact hclean _
                · exact matchGuardReadStmts_no_move _ s hs4
              · exact guardBindingReadStmts_no_move _ _ s hs2
            · exact armBindStmts_no_guard_read _ _ _

/-- A concrete guard-lowering collaborator for the move-after-guard witness:
allocates a guard-success and a guard-failure block and terminates the source
block with a goto (it pushes no statements, so it preserves move counts). -/
def w1LowerGuard : Nat → Cfg → Cfg × Nat × Nat := fun blk c =>
  ((c.startNewBlock.2.startNewBlock.2).terminate blk (.goto c.blocks.length),
    c.blocks.length, c.blocks.length + 1)

/-- Guard-locals live at `varId + 100`, arm-locals at `varId`. -/
def w1LocalFor : Nat → Bool → Nat := fun v fg => if fg then v + 100 else v

/-- A by-value binding of variable 5 and a by-ref binding of variable 6. -/
def w1Data : PatternExtraData := ⟨0, [⟨1, [0], 5, false⟩, ⟨2, [1], 6, true⟩], [], false⟩

/-- A fully matched guarded candidate carrying the two bindings. -/
def w1Candidate : Candidate := .mk [] [] true w1Data none (some 0) none none none

theorem move_after_guard_witness :
    match bindAndGuardMatchedCandidate w1LowerGuard w1LocalFor [] true true
        w1Candidate [] ⟨[BlockData.empty]⟩ with
    | some (pg, c2) =>
      (∀ b, b ≠ pg → c2.movesIn b = 0) ∧
      (∀ bnd ∈ ((([] : List PatternExtraData).foldr (fun d acc => d.bindings ++ acc)
            ([] : List Binding)) ++ w1Candidate.extraData.bindings).filter
            (fun b : Binding => !b.byRef),
        Stmt.assign (w1LocalFor bnd.varId false) (.useMoveCopy bnd.source) ∈
          (c2.block pg).stmts) ∧
      (∀ (i j : Nat) si sj, ((c2.block pg).stmts)[i]? = some si →
        si.isMove = true → ((c2.block pg).stmts)[j]? = some sj →
        sj.isGuardBindingRead = true → j < i)
    | none => False := by
  cases hrun : bindAndGuardMatchedCandidate w1LowerGuard w1LocalFor [] true true
      w1Candidate [] ⟨[BlockData.empty]⟩ with
  | none =>
    have hsome : (bindAndGuardMatchedCandidate w1LowerGuard w1LocalFor [] true true
        w1Candidate [] ⟨[BlockData.empty]⟩).isSome = true := by decide
    rw [hrun] at hsome
    simp at hsome
  | some pr =>
    obtain ⟨pg, c2⟩ := pr
    exact move_after_guard w1LowerGuard w1LocalFor [] true w1Candidate [] ⟨[BlockData.empty]⟩
      pg c2 rfl
      (by intro b; cases b <;> rfl)
      (by
        intro blk c b
        simp only [w1LowerGuard]
        rw [Cfg.movesIn_terminate, Cfg.movesIn_startNewBlock, Cfg.movesIn_startNewBlock])
      hrun
